import Mathlib

/-!
# Verification of the resumable two-phase crawl-state orchestrator

Shallow embedding of `src/parallel.js` (the file appearing as
`src/unnamed/part_002` in this checkout): the crawl-state data model,
the merge/initialize operations, the phase handlers, the persistence
protocol (`atomicWriteFile`, `doSave`, `gracefulShutdown`), the recovery
cascade (`loadState` plus the startup decision in `main`), and the
progress helpers (`calculateETA`, `formatDuration`, `progressBar`).

JavaScript objects keyed by strings are embedded as association lists
`List (String × α)` with first-match lookup and replace-or-append
insertion (object keys are unique, so first-match agrees with the JS
semantics).  Timestamps (`new Date().toISOString()`) are passed in as
abstract `String` parameters.  Machine numbers used here are natural
counters (only incremented or recomputed from counts) and millisecond
durations, embedded as `Nat` and `ℚ` respectively.
-/

namespace Crawler

/-! ## Association-list maps (embedding of JS plain objects) -/

/-- First-match lookup, `obj[k]` on a JS object. -/
def alookup {α : Type} : List (String × α) → String → Option α
  | [], _ => none
  | (k', v) :: rest, k => if k' = k then some v else alookup rest k

/-- `obj[k] = v` on a JS object: replace the binding if the key is
present, append a fresh binding otherwise. -/
def ainsert {α : Type} : List (String × α) → String → α → List (String × α)
  | [], k, v => [(k, v)]
  | (k', v') :: rest, k, v =>
    if k' = k then (k, v) :: rest else (k', v') :: ainsert rest k v

/-- `delete obj[k]`: drop the first binding of `k`. -/
def aerase {α : Type} : List (String × α) → String → List (String × α)
  | [], _ => []
  | (k', v') :: rest, k => if k' = k then rest else (k', v') :: aerase rest k

/-- The key sequence of an association list. -/
def akeys {α : Type} (m : List (String × α)) : List String :=
  m.map Prod.fst

theorem alookup_ainsert {α : Type} (m : List (String × α)) (k j : String) (v : α) :
    alookup (ainsert m k v) j = if j = k then some v else alookup m j := by
  induction m with
  | nil =>
    by_cases h : j = k
    · subst h; simp [ainsert, alookup]
    · have h' : ¬ k = j := fun hh => h hh.symm
      simp [ainsert, alookup, h, h']
  | cons p rest ih =>
    obtain ⟨k', v'⟩ := p
    by_cases hk : k' = k
    · subst hk
      by_cases hj : j = k'
      · subst hj; simp [ainsert, alookup]
      · have h' : ¬ k' = j := fun hh => hj hh.symm
        simp [ainsert, alookup, hj, h']
    · by_cases hj : j = k'
      · subst hj
        have h' : ¬ j = k := fun hh => hk hh
        simp [ainsert, hk, alookup, h']
      · have h' : ¬ k' = j := fun hh => hj hh.symm
        simp [ainsert, hk, alookup, h', ih]

theorem alookup_aerase_ne {α : Type} (m : List (String × α)) (k j : String)
    (h : j ≠ k) : alookup (aerase m k) j = alookup m j := by
  induction m with
  | nil => simp [aerase]
  | cons p rest ih =>
    obtain ⟨k', v'⟩ := p
    by_cases hk : k' = k
    · subst hk
      have h' : ¬ k' = j := fun hh => h hh.symm
      simp [aerase, alookup, h']
    · by_cases hj : k' = j <;> simp [aerase, hk, alookup, hj, ih, h]

theorem alookup_mem {α : Type} {m : List (String × α)} {k : String} {v : α}
    (h : alookup m k = some v) : (k, v) ∈ m := by
  induction m with
  | nil => simp [alookup] at h
  | cons p rest ih =>
    obtain ⟨k', v'⟩ := p
    by_cases hk : k' = k
    · subst hk
      simp [alookup] at h
      simp [h]
    · simp [alookup, hk] at h
      exact List.mem_cons_of_mem _ (ih h)

theorem mem_akeys_ainsert {α : Type} (m : List (String × α)) (k j : String) (v : α) :
    j ∈ akeys (ainsert m k v) ↔ j = k ∨ j ∈ akeys m := by
  induction m with
  | nil => simp [ainsert, akeys]
  | cons p rest ih =>
    obtain ⟨k', v'⟩ := p
    by_cases hk : k' = k
    · subst hk
      constructor
      · intro h
        rcases (by simpa [ainsert, akeys] using h) with h | h
        · exact Or.inl h
        · exact Or.inr (by simp [akeys, h])
      · intro h
        rcases h with h | h
        · simp [ainsert, akeys, h]
        · rcases (by simpa [akeys] using h) with h | h
          · simp [ainsert, akeys, h]
          · simp [ainsert, akeys, h]
    · simp only [ainsert, if_neg hk, akeys, List.map_cons, List.mem_cons]
      constructor
      · intro h
        rcases h with h | h
        · exact Or.inr (Or.inl h)
        · rcases (ih.mp (by simpa [akeys] using h)) with h | h
          · exact Or.inl h
          · exact Or.inr (Or.inr (by simpa [akeys] using h))
      · intro h
        rcases h with h | h | h
        · exact Or.inr (ih.mpr (Or.inl h))
        · exact Or.inl h
        · exact Or.inr (ih.mpr (Or.inr (by simpa [akeys] using h)))

/-! ## Status constants (`ZIPCODE_STATUS`, `PLAN_STATUS`) -/

/-- `ZIPCODE_STATUS`: `pending`, `urls_collected`, `completed`, `error`. -/
inductive ZStatus where
  | pending
  | urlsCollected
  | completed
  | zerror
  deriving DecidableEq, Repr

/-- `PLAN_STATUS`: `pending`, `completed`, `error`. -/
inductive PStatus where
  | pending
  | completed
  | perror
  deriving DecidableEq, Repr

/-! ## Data model (`state`, `ZipcodeEntry`, `PlanEntry`) -/

/-- One plan record, as built by `createPlanEntry` and mutated by
phase 2.  `details` is the opaque detail payload (a structured record in
the source, embedded as an opaque `String`). -/
structure PlanEntry where
  status : PStatus
  planId : Option String
  planName : Option String
  planType : Option String
  monthlyPremium : Option String
  estimatedAnnualCost : Option String
  starRating : Option String
  detailsUrl : Option String
  details : Option String
  perr : Option String
  scrapedAt : Option String
  deriving DecidableEq, Repr

/-- One zipcode record, as built by `createZipcodeEntry`. -/
structure ZipcodeEntry where
  index : Nat
  zipcode : String
  zstate : String
  city : String
  status : ZStatus
  phase1StartedAt : Option String
  phase1CompletedAt : Option String
  phase2StartedAt : Option String
  phase2CompletedAt : Option String
  totalPlans : Nat
  plansWithDetails : Nat
  zerr : Option String
  plans : List PlanEntry
  deriving DecidableEq, Repr

/-- `state.metadata`. -/
structure Metadata where
  createdAt : Option String
  lastUpdatedAt : Option String
  totalZipcodes : Nat
  phase1Completed : Nat
  phase2Completed : Nat
  totalPlansFound : Nat
  totalPlansFilled : Nat
  workers : Nat
  deriving DecidableEq, Repr

/-- The map `state.zipcodes`. -/
abbrev ZMap := List (String × ZipcodeEntry)

/-- The global `state` object. -/
structure CrawlState where
  metadata : Metadata
  zipcodeOrder : List String
  zipcodes : ZMap
  deriving DecidableEq, Repr

/-- One row of the CSV input (`loadZipcodes` output). -/
structure ZInfo where
  zipcode : String
  zstate : String
  city : String
  deriving DecidableEq, Repr

/-- One plan summary scraped from a result page (`extractPlanList` output). -/
structure PlanSummary where
  planId : Option String
  planName : Option String
  planType : Option String
  monthlyPremium : Option String
  estimatedAnnualCost : Option String
  starRating : Option String
  detailsUrl : Option String
  deriving DecidableEq, Repr

/-- `createZipcodeEntry(zipcodeInfo, index)`. -/
def createZipcodeEntry (z : ZInfo) (index : Nat) : ZipcodeEntry :=
  { index := index
    zipcode := z.zipcode
    zstate := z.zstate
    city := z.city
    status := ZStatus.pending
    phase1StartedAt := none
    phase1CompletedAt := none
    phase2StartedAt := none
    phase2CompletedAt := none
    totalPlans := 0
    plansWithDetails := 0
    zerr := none
    plans := [] }

/-- `createPlanEntry(planSummary)`.  The `x || null` coalescing on the
summary fields is the identity on our `Option String` embedding. -/
def createPlanEntry (ps : PlanSummary) : PlanEntry :=
  { status := PStatus.pending
    planId := ps.planId
    planName := ps.planName
    planType := ps.planType
    monthlyPremium := ps.monthlyPremium
    estimatedAnnualCost := ps.estimatedAnnualCost
    starRating := ps.starRating
    detailsUrl := ps.detailsUrl
    details := none
    perr := none
    scrapedAt := none }

/-! ## State initialization and merge -/

/-- The `zipcodes.forEach((z, index) => { state.zipcodes[z.zipcode] =
createZipcodeEntry(z, index) })` loop of `initializeState`, with the
running index made explicit. -/
def initEntries (m : ZMap) (idx : Nat) : List ZInfo → ZMap
  | [] => m
  | z :: rest => initEntries (ainsert m z.zipcode (createZipcodeEntry z idx)) (idx + 1) rest

/-- `initializeState(zipcodes, workers)`; `now` stands for
`new Date().toISOString()`. -/
def initializeState (zipcodes : List ZInfo) (workers : Nat) (now : String) : CrawlState :=
  { metadata :=
      { createdAt := some now
        lastUpdatedAt := some now
        totalZipcodes := zipcodes.length
        phase1Completed := 0
        phase2Completed := 0
        totalPlansFound := 0
        totalPlansFilled := 0
        workers := workers }
    zipcodeOrder := zipcodes.map (fun z => z.zipcode)
    zipcodes := initEntries [] 0 zipcodes }

/-- The per-row entry of the `mergeState` loop: keep the existing entry
for the key (updating its `index` to the new position), or create a
fresh pending one.  `existing` is the `{ ...state.zipcodes }` snapshot. -/
def mergeRow (existing : ZMap) (z : ZInfo) (idx : Nat) : ZipcodeEntry :=
  match alookup existing z.zipcode with
  | some e => { e with index := idx }
  | none => createZipcodeEntry z idx

/-- The entry-updating loop of `mergeState`.  `m` is the map being
mutated — it starts as `state.zipcodes` itself: the source never clears
it, so stale keys survive. -/
def mergeEntries (existing : ZMap) (m : ZMap) (idx : Nat) : List ZInfo → ZMap
  | [] => m
  | z :: rest =>
    mergeEntries existing (ainsert m z.zipcode (mergeRow existing z idx)) (idx + 1) rest

/-- `phase1Done` as recounted by the `mergeState` loop: one per input row
whose existing entry is `URLS_COLLECTED` or `COMPLETED`. -/
def mergePhase1Done (existing : ZMap) : List ZInfo → Nat
  | [] => 0
  | z :: rest =>
    (match alookup existing z.zipcode with
     | some e =>
       if e.status = ZStatus.urlsCollected ∨ e.status = ZStatus.completed then 1 else 0
     | none => 0) + mergePhase1Done existing rest

/-- `phase2Done` as recounted by the `mergeState` loop. -/
def mergePhase2Done (existing : ZMap) : List ZInfo → Nat
  | [] => 0
  | z :: rest =>
    (match alookup existing z.zipcode with
     | some e => if e.status = ZStatus.completed then 1 else 0
     | none => 0) + mergePhase2Done existing rest

/-- `totalPlans` as recounted by the `mergeState` loop. -/
def mergeTotalPlans (existing : ZMap) : List ZInfo → Nat
  | [] => 0
  | z :: rest =>
    (match alookup existing z.zipcode with
     | some e =>
       if e.status = ZStatus.urlsCollected ∨ e.status = ZStatus.completed then e.totalPlans else 0
     | none => 0) + mergeTotalPlans existing rest

/-- The number of `COMPLETED` plans in a list. -/
def countCompleted (plans : List PlanEntry) : Nat :=
  (plans.filter (fun p => p.status = PStatus.completed)).length

/-- `filledPlans` as recounted by the `mergeState` loop: for a completed
entry its stored `plansWithDetails`, otherwise a direct count of its
completed plans; new zipcodes contribute nothing. -/
def mergeFilledPlans (existing : ZMap) : List ZInfo → Nat
  | [] => 0
  | z :: rest =>
    (match alookup existing z.zipcode with
     | some e =>
       if e.status = ZStatus.completed then e.plansWithDetails
       else countCompleted e.plans
     | none => 0) + mergeFilledPlans existing rest

/-- `mergeState(zipcodes, workers)`.  The source computes the entry map
and the four recounted counters in a single `forEach` over the input;
the counter contributions read only the snapshot entry for the row's
key, so they are split out here into the `merge*` sums above. -/
def mergeState (zipcodes : List ZInfo) (workers : Nat) (s : CrawlState) : CrawlState :=
  let newOrder := zipcodes.map (fun z => z.zipcode)
  let existing := s.zipcodes
  { metadata :=
      { s.metadata with
        totalZipcodes := zipcodes.length
        workers := workers
        phase1Completed := mergePhase1Done existing zipcodes
        phase2Completed := mergePhase2Done existing zipcodes
        totalPlansFound := mergeTotalPlans existing zipcodes
        totalPlansFilled := mergeFilledPlans existing zipcodes }
    zipcodeOrder := newOrder
    zipcodes := mergeEntries existing s.zipcodes 0 zipcodes }

/-! ## Shutdown coordinator (`doSave`, `gracefulShutdown`)

The persistence side effects are abstracted to a version counter:
`memState` is the in-memory `state` (only its identity matters here) and
`disk` the content of `crawler_state.json`.  `doSave` models lines
120-140: the `isShuttingDown` guard, then — under the write lock — an
atomic write of the serialized state (so `disk := some memState`), with
`isSaving` raised during the write and cleared in the `finally`. -/

structure ShutdownWorld where
  isShuttingDown : Bool
  isSaving : Bool
  saveTimer : Bool
  memState : Nat
  disk : Option Nat
  deriving DecidableEq, Repr

/-- `doSave()`: `if (isShuttingDown) return;` then write the current
in-memory state to the state file. -/
def doSave (w : ShutdownWorld) : ShutdownWorld :=
  if w.isShuttingDown then w
  else { w with disk := some w.memState, isSaving := false }

/-- `gracefulShutdown(signal)`: re-entry guard, set the shutdown flag,
clear any pending debounce timer, wait (bounded) for an in-flight save —
modelled generously as that save completing and flushing the current
in-memory state — then call `doSave()` one final time. -/
def gracefulShutdown (w : ShutdownWorld) : ShutdownWorld :=
  if w.isShuttingDown then w
  else
    let w1 := { w with isShuttingDown := true, saveTimer := false }
    let w2 :=
      if w1.isSaving then { w1 with isSaving := false, disk := some w1.memState } else w1
    doSave w2

/-- A world at the moment of a signal: one fully applied mutation
(version 1) in memory, version 0 on disk, a debounced save pending,
no save in flight. -/
def signalWorld : ShutdownWorld :=
  { isShuttingDown := false
    isSaving := false
    saveTimer := true
    memState := 1
    disk := some 0 }

/-- C1, failing input: `gracefulShutdown` sets `isShuttingDown` before
its final `doSave()`, and `doSave` begins with `if (isShuttingDown)
return;` — so the final save writes nothing and the disk keeps the
stale version. -/
theorem gracefulShutdown_final_save_is_noop :
    (gracefulShutdown signalWorld).disk = some 0 ∧
      (gracefulShutdown signalWorld).disk ≠ some signalWorld.memState ∧
      (gracefulShutdown signalWorld).isShuttingDown = true ∧
      (gracefulShutdown signalWorld).saveTimer = false := by
  decide

/-! ## C5: order preservation under merge -/

/-- C5: after `mergeState`, `zipcodeOrder` is exactly the key sequence of
the new input, whatever the old state held. -/
theorem mergeState_order_eq_input_order (zipcodes : List ZInfo) (workers : Nat)
    (s : CrawlState) :
    (mergeState zipcodes workers s).zipcodeOrder = zipcodes.map (fun z => z.zipcode) := rfl

/-! ## Progress and ETA tracker (`timeTracker`, `calculateETA`,
`formatDuration`, `progressBar`)

Millisecond durations are embedded as `ℚ`; `Math.floor` is `Int.floor`
and, on the non-negative values that occur here, the JS `%` remainder
agrees with `Int.emod`. -/

/-- The duration samples of `timeTracker` (ms per completed item). -/
structure TimeTracker where
  phase1Times : List ℚ
  phase2Times : List ℚ
  deriving DecidableEq, Repr

/-- `formatDuration(ms)`. -/
def formatDuration (ms : ℚ) : String :=
  let seconds : Int := Int.floor (ms / 1000)
  let minutes : Int := Int.floor ((seconds : ℚ) / 60)
  let hours : Int := Int.floor ((minutes : ℚ) / 60)
  if 0 < hours then toString hours ++ "h " ++ toString (minutes % 60) ++ "m"
  else if 0 < minutes then toString minutes ++ "m " ++ toString (seconds % 60) ++ "s"
  else toString seconds ++ "s"

/-- `calculateETA(phase, remaining)`: pick the phase's sample list
(`phase === 1` selects phase 1, anything else phase 2), report
`calculating...` below 3 samples, otherwise the average of the last 20
samples (`times.slice(-20)`, then `reduce((a, b) => a + b, 0) / length`)
times the remaining count. -/
def calculateETA (phase : Nat) (remaining : ℚ) (t : TimeTracker) : String :=
  let times := if phase = 1 then t.phase1Times else t.phase2Times
  if times.length < 3 then "calculating..."
  else
    let recentTimes := times.drop (times.length - 20)
    let avgMs := recentTimes.foldl (fun a b => a + b) 0 / (recentTimes.length : ℚ)
    let remainingMs := avgMs * remaining
    formatDuration remainingMs

/-- The most recent at-most-`n` elements of a list (`slice(-n)`). -/
def lastN (n : Nat) (l : List ℚ) : List ℚ :=
  l.drop (l.length - n)

/-- The arithmetic mean of a list of rationals. -/
def listMean (l : List ℚ) : ℚ :=
  l.sum / (l.length : ℚ)

theorem foldl_add_eq_sum (l : List ℚ) (a : ℚ) :
    l.foldl (fun x y => x + y) a = a + l.sum := by
  induction l generalizing a with
  | nil => simp
  | cons x xs ih => simp [List.foldl_cons, ih, List.sum_cons]; ring

/-- C9: `calculateETA` returns `calculating...` below 3 recorded samples
for the phase, and otherwise the formatted value of
`remaining × mean(last ≤ 20 samples for the phase)`. -/
theorem calculateETA_spec (phase : Nat) (remaining : ℚ) (t : TimeTracker) :
    calculateETA phase remaining t =
      (let times := if phase = 1 then t.phase1Times else t.phase2Times
       if times.length < 3 then "calculating..."
       else formatDuration (remaining * listMean (lastN 20 times))) := by
  unfold calculateETA lastN listMean
  by_cases h1 : phase = 1 <;> simp only [h1, if_true, if_false] <;> split
  · rfl
  · congr 1
    rw [foldl_add_eq_sum, zero_add]
    ring
  · rfl
  · congr 1
    rw [foldl_add_eq_sum, zero_add]
    ring

/-- `progressBar(current, total, width)`.  `Math.round(x)` on the
non-negative arguments arising here is `⌊x + 1/2⌋`.  A JS
`String.repeat` with a negative count throws `RangeError`; that is the
`none` result. -/
def progressBar (current total width : Nat) : Option String :=
  if total = 0 then some ("[" ++ String.mk (List.replicate width '░') ++ "]")
  else if Int.floor (((current : ℚ) / (total : ℚ)) * (width : ℚ) + 1 / 2) < 0 ∨
      (width : Int) - Int.floor (((current : ℚ) / (total : ℚ)) * (width : ℚ) + 1 / 2) < 0 then
    none
  else
    some ("[" ++
      String.mk (List.replicate
        (Int.floor (((current : ℚ) / (total : ℚ)) * (width : ℚ) + 1 / 2)).toNat '█') ++
      String.mk (List.replicate
        ((width : Int) - Int.floor (((current : ℚ) / (total : ℚ)) * (width : ℚ) + 1 / 2)).toNat
        '░') ++ "]")

theorem string_mk_length (l : List Char) : (String.mk l).length = l.length := rfl

/-- C10: with `current ≤ total`, `progressBar` never throws (the
empty-cell count is non-negative) and the bar is exactly `width + 2`
characters. -/
theorem progressBar_safe_and_length (current total width : Nat) (h : current ≤ total) :
    ∃ str, progressBar current total width = some str ∧ str.length = width + 2 := by
  have hlb : ("[" : String).length = 1 := rfl
  have hrb : ("]" : String).length = 1 := rfl
  by_cases ht : total = 0
  · refine ⟨"[" ++ String.mk (List.replicate width '░') ++ "]", ?_, ?_⟩
    · unfold progressBar
      rw [if_pos ht]
    · simp only [String.length_append, string_mk_length, List.length_replicate, hlb, hrb]
      omega
  · have htpos : (0 : ℚ) < (total : ℚ) := by
      exact_mod_cast Nat.pos_of_ne_zero ht
    set r : ℚ := ((current : ℚ) / (total : ℚ)) * (width : ℚ) with hr
    have hr0 : 0 ≤ r := by positivity
    have hrw : r ≤ (width : ℚ) := by
      rw [hr, div_mul_eq_mul_div, div_le_iff₀ htpos]
      have hc : (current : ℚ) ≤ (total : ℚ) := by exact_mod_cast h
      calc (current : ℚ) * (width : ℚ) ≤ (total : ℚ) * (width : ℚ) := by
            exact mul_le_mul_of_nonneg_right hc (by positivity)
        _ = (width : ℚ) * (total : ℚ) := by ring
    have hfl0 : (0 : Int) ≤ Int.floor (r + 1 / 2) := by
      rw [Int.le_floor]
      push_cast
      linarith
    have hflw : Int.floor (r + 1 / 2) ≤ (width : Int) := by
      have h1 : Int.floor (r + 1 / 2) ≤ Int.floor ((1 : ℚ) / 2 + ((width : Int) : ℚ)) :=
        Int.floor_le_floor (by push_cast; linarith)
      rw [Int.floor_add_int] at h1
      have h3 : Int.floor ((1 : ℚ) / 2) = 0 := by norm_num
      rw [h3, zero_add] at h1
      exact h1
    have hneg : ¬ (Int.floor (r + 1 / 2) < 0 ∨ (width : Int) - Int.floor (r + 1 / 2) < 0) := by
      push_neg
      exact ⟨hfl0, by omega⟩
    refine ⟨"[" ++ String.mk (List.replicate (Int.floor (r + 1 / 2)).toNat '█') ++
      String.mk (List.replicate ((width : Int) - Int.floor (r + 1 / 2)).toNat '░') ++ "]",
      ?_, ?_⟩
    · unfold progressBar
      rw [if_neg ht, ← hr, if_neg hneg]
    · simp only [String.length_append, string_mk_length, List.length_replicate, hlb, hrb]
      omega

/-- Witness for C10 at `current = 1`, `total = 3`, `width = 25`. -/
theorem progressBar_safe_and_length_witness :
    ∃ str, progressBar 1 3 25 = some str ∧ str.length = 27 :=
  progressBar_safe_and_length 1 3 25 (by decide)

/-! ## Atomic write protocol (`atomicWriteFile`)

The filesystem is an association list from paths to contents.  The
source sequence is: write the temp sibling, copy the target (when
present) to the `.backup` sibling, rename the temp onto the target; any
step may throw, and the `catch` block copies the backup back over a
missing target before rethrowing.  Failures are injected by a
`FailPoint`: `atRenameKeep` is a rename failure that leaves the
filesystem as it was, `atRenameLost` one that loses both the temp file
and the target (the non-atomic worst case the restore branch exists
for).  The steps actually executed are reported as an event trace. -/

abbrev Fs := List (String × String)

/-- `existsSync`. -/
def fsExists (fs : Fs) (p : String) : Bool := (alookup fs p).isSome

inductive FailPoint where
  | noFail
  | atTempWrite
  | atBackupCopy
  | atRenameKeep
  | atRenameLost
  deriving DecidableEq, Repr

inductive WEvent where
  | wroteTemp
  | copiedBackup
  | renamed
  | restoredBackup
  deriving DecidableEq, Repr

structure WriteResult where
  fs : Fs
  ok : Bool
  events : List WEvent
  deriving DecidableEq, Repr

/-- The `catch` block: if the backup exists and the target does not,
copy the backup back to the target; the error propagates either way
(`ok := false`). -/
def restoreOnFailure (filePath backupPath : String) (fs : Fs) (evs : List WEvent) : WriteResult :=
  if fsExists fs backupPath && !fsExists fs filePath then
    ⟨ainsert fs filePath ((alookup fs backupPath).getD ""), false, evs ++ [WEvent.restoredBackup]⟩
  else ⟨fs, false, evs⟩

/-- The `rename(tempPath, filePath)` step under the chosen fail point. -/
def renameStep (filePath tempPath backupPath content : String) (fs : Fs)
    (evs : List WEvent) : FailPoint → WriteResult
  | FailPoint.atRenameKeep => restoreOnFailure filePath backupPath fs evs
  | FailPoint.atRenameLost =>
    restoreOnFailure filePath backupPath (aerase (aerase fs tempPath) filePath) evs
  | _ => ⟨ainsert (aerase fs tempPath) filePath content, true, evs ++ [WEvent.renamed]⟩

/-- `atomicWriteFile(filePath, content)`. -/
def atomicWriteFile (filePath content : String) (fs : Fs) (fp : FailPoint) : WriteResult :=
  let tempPath := filePath ++ ".tmp"
  let backupPath := filePath ++ ".backup"
  if fp = FailPoint.atTempWrite then restoreOnFailure filePath backupPath fs []
  else
    let fs1 := ainsert fs tempPath content
    if fsExists fs1 filePath then
      if fp = FailPoint.atBackupCopy then
        restoreOnFailure filePath backupPath fs1 [WEvent.wroteTemp]
      else
        let fs2 := ainsert fs1 backupPath ((alookup fs1 filePath).getD "")
        renameStep filePath tempPath backupPath content fs2
          [WEvent.wroteTemp, WEvent.copiedBackup] fp
    else
      renameStep filePath tempPath backupPath content fs1 [WEvent.wroteTemp] fp

theorem string_append_ne_self (s t : String) (h : t.length ≠ 0) : s ≠ s ++ t := by
  intro he
  have hlen : s.length = (s ++ t).length := by rw [← he]
  rw [String.length_append] at hlen
  omega

theorem string_append_ne_append (s t u : String) (h : t.length ≠ u.length) :
    s ++ t ≠ s ++ u := by
  intro he
  have hlen : (s ++ t).length = (s ++ u).length := by rw [he]
  rw [String.length_append, String.length_append] at hlen
  omega

/-- C2: `atomicWriteFile` follows temp-write, then backup-copy, then
rename (witnessed by the event trace of a failure-free run on an
existing target); every injected failure propagates the error
(`ok = false`), and in all cases the target path still exists afterwards
whenever it existed before. -/
theorem atomicWriteFile_protocol (filePath content : String) (fs : Fs) (fp : FailPoint)
    (hex : fsExists fs filePath = true) :
    (fp = FailPoint.noFail →
      (atomicWriteFile filePath content fs fp).ok = true ∧
      (atomicWriteFile filePath content fs fp).events =
        [WEvent.wroteTemp, WEvent.copiedBackup, WEvent.renamed] ∧
      alookup (atomicWriteFile filePath content fs fp).fs filePath = some content) ∧
    (fp ≠ FailPoint.noFail → (atomicWriteFile filePath content fs fp).ok = false) ∧
    fsExists (atomicWriteFile filePath content fs fp).fs filePath = true := by
  have hpt : filePath ≠ filePath ++ ".tmp" :=
    string_append_ne_self filePath ".tmp" (by decide)
  have hpb : filePath ≠ filePath ++ ".backup" :=
    string_append_ne_self filePath ".backup" (by decide)
  have hbt : filePath ++ ".backup" ≠ filePath ++ ".tmp" :=
    string_append_ne_append filePath ".backup" ".tmp" (by decide)
  have hex' : (alookup fs filePath).isSome = true := by simpa [fsExists] using hex
  cases fp with
  | noFail =>
    refine ⟨fun _ => ⟨?_, ?_, ?_⟩, fun hc => absurd rfl hc, ?_⟩ <;>
      simp [atomicWriteFile, renameStep, restoreOnFailure, fsExists,
        alookup_ainsert, alookup_aerase_ne, hpt, hpb, hex']
  | atTempWrite =>
    refine ⟨fun hc => absurd hc (by decide), fun _ => ?_, ?_⟩ <;>
      simp [atomicWriteFile, restoreOnFailure, fsExists, hex']
  | atBackupCopy =>
    refine ⟨fun hc => absurd hc (by decide), fun _ => ?_, ?_⟩ <;>
      simp [atomicWriteFile, restoreOnFailure, fsExists, alookup_ainsert, hpt, hex']
  | atRenameKeep =>
    refine ⟨fun hc => absurd hc (by decide), fun _ => ?_, ?_⟩ <;>
      simp [atomicWriteFile, renameStep, restoreOnFailure, fsExists,
        alookup_ainsert, hpt, hpb, hex']
  | atRenameLost =>
    have hok : ∀ (fsx : Fs) (evs : List WEvent),
        (restoreOnFailure filePath (filePath ++ ".backup") fsx evs).ok = false := by
      intro fsx evs
      rw [restoreOnFailure]
      split <;> rfl
    refine ⟨fun hc => absurd hc (by decide), fun _ => ?_, ?_⟩
    · simp only [atomicWriteFile, renameStep,
        if_neg (by decide : ¬ (FailPoint.atRenameLost = FailPoint.atTempWrite)),
        if_neg (by decide : ¬ (FailPoint.atRenameLost = FailPoint.atBackupCopy))]
      split <;> exact hok _ _
    simp only [atomicWriteFile, renameStep, restoreOnFailure,
      if_neg (by decide : ¬ (FailPoint.atRenameLost = FailPoint.atTempWrite)),
      if_neg (by decide : ¬ (FailPoint.atRenameLost = FailPoint.atBackupCopy))]
    have hfs1 : fsExists (ainsert fs (filePath ++ ".tmp") content) filePath = true := by
      simp [fsExists, alookup_ainsert, hpt, hex']
    rw [if_pos hfs1]
    set fs2 : Fs := ainsert (ainsert fs (filePath ++ ".tmp") content) (filePath ++ ".backup")
      ((alookup (ainsert fs (filePath ++ ".tmp") content) filePath).getD "") with hfs2
    set fsE : Fs := aerase (aerase fs2 (filePath ++ ".tmp")) filePath with hfsE
    have hbak : fsExists fsE (filePath ++ ".backup") = true := by
      rw [hfsE, fsExists, alookup_aerase_ne _ _ _ (Ne.symm hpb),
        alookup_aerase_ne _ _ _ hbt, hfs2, alookup_ainsert]
      simp
    cases hTgt : fsExists fsE filePath with
    | true =>
      have hTgt' : (alookup fsE filePath).isSome = true := by simpa [fsExists] using hTgt
      simp [fsExists, hTgt']
    | false =>
      have hbak' : (alookup fsE (filePath ++ ".backup")).isSome = true := by
        simpa [fsExists] using hbak
      have hTgt' : (alookup fsE filePath).isSome = false := by simpa [fsExists] using hTgt
      simp [fsExists, hbak', hTgt', alookup_ainsert]

/-- Witness for C2: a one-file system holding the target, with the
rename step failing destructively. -/
theorem atomicWriteFile_protocol_witness :
    fsExists [("state.json", "v1")] "state.json" = true ∧
      fsExists (atomicWriteFile "state.json" "v2" [("state.json", "v1")]
        FailPoint.atRenameLost).fs "state.json" = true :=
  ⟨by decide,
    (atomicWriteFile_protocol "state.json" "v2" [("state.json", "v1")]
      FailPoint.atRenameLost (by decide)).2.2⟩

/-! ## Phase 1: URL collection (`collectPlanUrls`) and its handlers

`collectPlanUrls` drives the extraction collaborator once per result
page.  `pages` is the sequence of page extractions actually obtained
(`totalPages` pages in the source; a pagination-click failure `break`s
the loop early, which is the same as this list being a prefix), and
`totalPlans` the figure from `getTotalPlanInfo`. -/

/-- The inner `for (const plan of planList)` dedup loop: the fallback id
is `unknown-<page>-<plans.length>`, and a plan is appended only when its
id is unseen. -/
def collectPage (pageNum : Nat) (acc : List String × List PlanEntry)
    (page : List PlanSummary) : List String × List PlanEntry :=
  page.foldl (fun sp plan =>
    let id := plan.planId.getD ("unknown-" ++ toString pageNum ++ "-" ++ toString sp.2.length)
    if id ∈ sp.1 then sp else (id :: sp.1, sp.2 ++ [createPlanEntry plan])) acc

/-- The page loop of `collectPlanUrls`, with the
`if (plans.length >= totalPlans) break` check after each page. -/
def collectGo (totalPlans : Nat) :
    List String → List PlanEntry → Nat → List (List PlanSummary) → List PlanEntry
  | _, plans, _, [] => plans
  | seen, plans, p, page :: rest =>
    let acc := collectPage p (seen, plans) page
    if totalPlans ≤ acc.2.length then acc.2
    else collectGo totalPlans acc.1 acc.2 (p + 1) rest

/-- `collectPlanUrls(page, zipcodeInfo)`, starting from page 1 with
nothing seen. -/
def collectPlanUrls (pages : List (List PlanSummary)) (totalPlans : Nat) : List PlanEntry :=
  collectGo totalPlans [] [] 1 pages

/-- Every plan produced by `collectPage` is inherited from the
accumulator or freshly built by `createPlanEntry`. -/
theorem collectPage_mem (pageNum : Nat) (page : List PlanSummary)
    (acc : List String × List PlanEntry) (q : PlanEntry)
    (hq : q ∈ (collectPage pageNum acc page).2) :
    q ∈ acc.2 ∨ ∃ ps, q = createPlanEntry ps := by
  induction page generalizing acc with
  | nil => exact Or.inl hq
  | cons plan rest ih =>
    rw [collectPage, List.foldl_cons] at hq
    rcases ih _ (by rw [collectPage]; exact hq) with hmem | hnew
    · by_cases hid : (plan.planId.getD
        ("unknown-" ++ toString pageNum ++ "-" ++ toString acc.2.length)) ∈ acc.1
      · simp only [if_pos hid] at hmem
        exact Or.inl hmem
      · simp only [if_neg hid] at hmem
        rcases List.mem_append.mp hmem with h | h
        · exact Or.inl h
        · exact Or.inr ⟨plan, (List.mem_singleton.mp h).symm ▸ rfl⟩
    · exact Or.inr hnew

/-- Every plan produced by `collectGo` is inherited or fresh. -/
theorem collectGo_mem (totalPlans : Nat) (pages : List (List PlanSummary))
    (seen : List String) (plans : List PlanEntry) (p : Nat) (q : PlanEntry)
    (hq : q ∈ collectGo totalPlans seen plans p pages) :
    q ∈ plans ∨ ∃ ps, q = createPlanEntry ps := by
  induction pages generalizing seen plans p with
  | nil => exact Or.inl hq
  | cons page rest ih =>
    rw [collectGo] at hq
    split at hq
    · exact collectPage_mem p page (seen, plans) q hq
    · rcases ih _ _ _ hq with hmem | hnew
      · exact collectPage_mem p page (seen, plans) q hmem
      · exact Or.inr hnew

/-- Every collected plan is a fresh `createPlanEntry` result — in
particular `PENDING`, with a `null` payload and no `error`. -/
theorem collectPlanUrls_fresh (pages : List (List PlanSummary)) (totalPlans : Nat)
    (q : PlanEntry) (hq : q ∈ collectPlanUrls pages totalPlans) :
    q.status = PStatus.pending ∧ q.details = none := by
  rcases collectGo_mem totalPlans pages [] [] 1 q hq with hmem | ⟨ps, hps⟩
  · cases hmem
  · subst hps
    exact ⟨rfl, rfl⟩

/-! ## Phase 2 detail filling (`fillPlanDetails`) -/

/-- `fillPlanDetails(page, zipcode, planEntry)`.  `nav` is the combined
outcome of the navigation plus detail-extraction collaborators inside
the `try` block.  The second component records whether navigation was
attempted at all.  A plan with no (falsy) `detailsUrl` is completed
immediately. -/
def fillPlanDetails (p : PlanEntry) (nav : Except String String) (now : String) :
    PlanEntry × Bool :=
  if p.detailsUrl = none then
    ({ p with status := PStatus.completed, scrapedAt := some now }, false)
  else
    match nav with
    | Except.ok d =>
      ({ p with details := some d, status := PStatus.completed, scrapedAt := some now }, true)
    | Except.error e =>
      ({ p with status := PStatus.perror, perr := some e, scrapedAt := some now }, true)

/-! ## The phase task handlers (mutations applied on task completion) -/

/-- The phase-1 `requestHandler` success path (lines 1131, 1141-1146):
record the collected plans, move the entry to `URLS_COLLECTED`, bump
`phase1Completed` and `totalPlansFound`. -/
def p1HandlerSuccess (z : String) (plans : List PlanEntry)
    (startedAt completedAt : String) (s : CrawlState) : CrawlState :=
  match alookup s.zipcodes z with
  | none => s
  | some e =>
    { s with
      zipcodes := ainsert s.zipcodes z
        { e with
          phase1StartedAt := some startedAt
          plans := plans
          totalPlans := plans.length
          status := ZStatus.urlsCollected
          phase1CompletedAt := some completedAt }
      metadata := { s.metadata with
                    phase1Completed := s.metadata.phase1Completed + 1
                    totalPlansFound := s.metadata.totalPlansFound + plans.length } }

/-- The phase-1 `requestHandler` catch path: entry to `ERROR`, message
stored, `phase1Completed` still bumped. -/
def p1HandlerError (z msg : String) (startedAt completedAt : String)
    (s : CrawlState) : CrawlState :=
  match alookup s.zipcodes z with
  | none => s
  | some e =>
    { s with
      zipcodes := ainsert s.zipcodes z
        { e with
          phase1StartedAt := some startedAt
          status := ZStatus.zerror
          zerr := some msg
          phase1CompletedAt := some completedAt }
      metadata := { s.metadata with phase1Completed := s.metadata.phase1Completed + 1 } }

/-- The phase-1 `failedRequestHandler` (retries exhausted): entry to
`ERROR`, `phase1Completed` bumped, no timestamps touched. -/
def p1HandlerFailed (z : String) (s : CrawlState) : CrawlState :=
  match alookup s.zipcodes z with
  | none => s
  | some e =>
    { s with
      zipcodes := ainsert s.zipcodes z
        { e with status := ZStatus.zerror, zerr := some "Max retries exceeded" }
      metadata := { s.metadata with phase1Completed := s.metadata.phase1Completed + 1 } }

/-- The body of the phase-2 `requestHandler` (lines 1235-1263) once
`entry` and the plan at `planIndex` have been resolved: fill the plan,
bump the filled counters when it completed, and when every plan of the
entry is terminal move the entry to `COMPLETED` and bump
`phase2Completed`. -/
def p2Result (z : String) (i : Nat) (nav : Except String String) (now : String)
    (s : CrawlState) (e : ZipcodeEntry) (p : PlanEntry) : CrawlState :=
  let p' := (fillPlanDetails p nav now).1
  let plans' := e.plans.set i p'
  let pwd' :=
    if p'.status = PStatus.completed then e.plansWithDetails + 1 else e.plansWithDetails
  let filled' :=
    if p'.status = PStatus.completed then s.metadata.totalPlansFilled + 1
    else s.metadata.totalPlansFilled
  let allDone := plans'.all (fun q => decide (q.status ≠ PStatus.pending))
  let e' :=
    if allDone then
      { e with plans := plans', plansWithDetails := pwd',
               status := ZStatus.completed, phase2CompletedAt := some now }
    else { e with plans := plans', plansWithDetails := pwd' }
  { s with
    zipcodes := ainsert s.zipcodes z e'
    metadata := { s.metadata with
                  totalPlansFilled := filled'
                  phase2Completed :=
                    if allDone then s.metadata.phase2Completed + 1
                    else s.metadata.phase2Completed } }

def p2Handler (z : String) (i : Nat) (nav : Except String String) (now : String)
    (s : CrawlState) : CrawlState :=
  match alookup s.zipcodes z with
  | none => s
  | some e =>
    match e.plans.get? i with
    | none => s
    | some p => p2Result z i nav now s e p

/-- The phase-2 catch path and `failedRequestHandler`: the plan goes to
`ERROR` with the message stored; nothing else is touched.  (In the
source the `catch` can only fire before the plan mutation, because
`fillPlanDetails` traps its own exceptions.) -/
def p2HandlerError (z : String) (i : Nat) (msg : String) (s : CrawlState) : CrawlState :=
  match alookup s.zipcodes z with
  | none => s
  | some e =>
    match e.plans.get? i with
    | none => s
    | some p =>
      { s with
        zipcodes := ainsert s.zipcodes z
          { e with plans := e.plans.set i { p with status := PStatus.perror, perr := some msg } } }

/-! ## The phase work sets (`main`) -/

/-- `phase1Pending` (lines 1108-1110): the entries of `zipcodeOrder`
that exist and are `PENDING`. -/
def phase1Pending (s : CrawlState) : List ZipcodeEntry :=
  (s.zipcodeOrder.filterMap (alookup s.zipcodes)).filter
    (fun e => decide (e.status = ZStatus.pending))

/-- The `for (let i = 0; i < entry.plans.length; i++)` scan collecting
`(zipcode, planIndex)` for each `PENDING` plan. -/
def pendingPlanIdx (z : String) : Nat → List PlanEntry → List (String × Nat)
  | _, [] => []
  | i, p :: rest =>
    if p.status = PStatus.pending then (z, i) :: pendingPlanIdx z (i + 1) rest
    else pendingPlanIdx z (i + 1) rest

/-- The per-zipcode body of the `plansToFill` loop: skip missing,
`ERROR` or `PENDING` entries, scan the rest for `PENDING` plans. -/
def planFillTasks (s : CrawlState) (z : String) : List (String × Nat) :=
  match alookup s.zipcodes z with
  | none => []
  | some e =>
    if e.status = ZStatus.zerror ∨ e.status = ZStatus.pending then []
    else pendingPlanIdx z 0 e.plans

/-- `plansToFill` (lines 1206-1217): every `PENDING` plan of every
existing, non-`ERROR`, non-`PENDING` zipcode entry, in order. -/
def plansToFill (s : CrawlState) : List (String × Nat) :=
  s.zipcodeOrder.bind (planFillTasks s)

theorem pendingPlanIdx_mem (z : String) (l : List PlanEntry) (i : Nat)
    (z' : String) (j : Nat) :
    (z', j) ∈ pendingPlanIdx z i l ↔
      z' = z ∧ ∃ k p, j = i + k ∧ l.get? k = some p ∧ p.status = PStatus.pending := by
  induction l generalizing i with
  | nil => simp [pendingPlanIdx]
  | cons p rest ih =>
    by_cases hp : p.status = PStatus.pending
    · rw [pendingPlanIdx, if_pos hp]
      constructor
      · intro h
        rcases List.mem_cons.mp h with h | h
        · obtain ⟨hz, hj⟩ := Prod.ext_iff.mp h
          exact ⟨hz, 0, p, by omega, rfl, hp⟩
        · obtain ⟨hz, k, q, hj, hget, hq⟩ := (ih (i + 1)).mp h
          exact ⟨hz, k + 1, q, by omega, by simpa using hget, hq⟩
      · rintro ⟨hz, k, q, hj, hget, hq⟩
        cases k with
        | zero =>
          simp only [List.get?_cons_zero, Option.some.injEq] at hget
          subst hz
          have : j = i := by omega
          subst this
          exact List.mem_cons_self _ _
        | succ k' =>
          refine List.mem_cons_of_mem _ ((ih (i + 1)).mpr ⟨hz, k', q, by omega, ?_, hq⟩)
          simpa using hget
    · rw [pendingPlanIdx, if_neg hp]
      constructor
      · intro h
        obtain ⟨hz, k, q, hj, hget, hq⟩ := (ih (i + 1)).mp h
        exact ⟨hz, k + 1, q, by omega, by simpa using hget, hq⟩
      · rintro ⟨hz, k, q, hj, hget, hq⟩
        cases k with
        | zero =>
          simp only [List.get?_cons_zero, Option.some.injEq] at hget
          subst hget
          exact absurd hq hp
        | succ k' =>
          exact (ih (i + 1)).mpr ⟨hz, k', q, by omega, by simpa using hget, hq⟩

theorem pendingPlanIdx_nil (z : String) (l : List PlanEntry) (i : Nat)
    (h : ∀ p ∈ l, p.status ≠ PStatus.pending) : pendingPlanIdx z i l = [] := by
  induction l generalizing i with
  | nil => rfl
  | cons p rest ih =>
    rw [pendingPlanIdx, if_neg (h p (List.mem_cons_self _ _))]
    exact ih _ (fun q hq => h q (List.mem_cons_of_mem _ hq))

/-- C7: the phase-2 work set is exactly the `PENDING` plans under
existing, non-`ERROR`, non-`PENDING` parents listed in `zipcodeOrder`,
and a plan without a `detailsUrl` is completed with its payload left
untouched (`null` for any phase-1-created plan), a `scrapedAt` stamp,
and no navigation attempted. -/
theorem plansToFill_spec_and_no_url_fill :
    (∀ (s : CrawlState) (z : String) (i : Nat),
      (z, i) ∈ plansToFill s ↔
        z ∈ s.zipcodeOrder ∧ ∃ e, alookup s.zipcodes z = some e ∧
          e.status ≠ ZStatus.zerror ∧ e.status ≠ ZStatus.pending ∧
          ∃ p, e.plans.get? i = some p ∧ p.status = PStatus.pending) ∧
    (∀ (p : PlanEntry) (nav : Except String String) (now : String),
      p.detailsUrl = none →
        fillPlanDetails p nav now =
          ({ p with status := PStatus.completed, scrapedAt := some now }, false)) := by
  constructor
  · intro s z i
    constructor
    · intro h
      obtain ⟨z', hz'mem, hin⟩ := List.mem_bind.mp h
      cases hlk : alookup s.zipcodes z' with
      | none => simp [planFillTasks, hlk] at hin
      | some e =>
        simp only [planFillTasks, hlk] at hin
        by_cases hstat : e.status = ZStatus.zerror ∨ e.status = ZStatus.pending
        · rw [if_pos hstat] at hin; cases hin
        · rw [if_neg hstat] at hin
          obtain ⟨hz, k, p, hj, hget, hp⟩ := (pendingPlanIdx_mem z' e.plans 0 z i).mp hin
          subst hz
          push_neg at hstat
          refine ⟨hz'mem, e, hlk, hstat.1, hstat.2, p, ?_, hp⟩
          have hik : i = k := by omega
          rwa [hik]
    · rintro ⟨hzmem, e, hlk, herr, hpend, p, hget, hp⟩
      refine List.mem_bind.mpr ⟨z, hzmem, ?_⟩
      simp only [planFillTasks, hlk]
      rw [if_neg (by tauto)]
      exact (pendingPlanIdx_mem z e.plans 0 z i).mpr ⟨rfl, i, p, (Nat.zero_add i).symm, hget, hp⟩
  · intro p nav now hurl
    rw [fillPlanDetails.eq_def, if_pos hurl]

/-! ## The scheduler run (`main`, phases 1 and 2)

An oracle maps each task to the outcome of its external collaborators;
the run folds the corresponding handler over the pending work sets
computed exactly as `main` computes them. -/

inductive P1Outcome where
  | success (pages : List (List PlanSummary)) (totalPlans : Nat) (startedAt completedAt : String)
  | failure (msg startedAt completedAt : String)
  | retriesExhausted

inductive P2Outcome where
  | finished (nav : Except String String) (now : String)
  | retriesExhausted

def applyP1 (o : String → P1Outcome) (s : CrawlState) (z : String) : CrawlState :=
  match o z with
  | P1Outcome.success pages total t1 t2 => p1HandlerSuccess z (collectPlanUrls pages total) t1 t2 s
  | P1Outcome.failure msg t1 t2 => p1HandlerError z msg t1 t2 s
  | P1Outcome.retriesExhausted => p1HandlerFailed z s

def applyP2 (o : String × Nat → P2Outcome) (s : CrawlState) (zi : String × Nat) : CrawlState :=
  match o zi with
  | P2Outcome.finished nav now => p2Handler zi.1 zi.2 nav now s
  | P2Outcome.retriesExhausted => p2HandlerError zi.1 zi.2 "Max retries exceeded" s

/-- One run of `main`'s two phase sections: phase 1 over its pending
set, then phase 2 over the work set computed from the state phase 1
left behind. -/
def schedulerRun (o1 : String → P1Outcome) (o2 : String × Nat → P2Outcome)
    (s : CrawlState) : CrawlState :=
  let s1 := (phase1Pending s).foldl (fun acc e => applyP1 o1 acc e.zipcode) s
  (plansToFill s1).foldl (applyP2 o2) s1

/-- C8: on a state whose entries are all non-`PENDING` and whose
non-`ERROR` entries have no `PENDING` plans, both work sets are empty
and a scheduler run returns the state unchanged. -/
theorem schedulerRun_idempotent_when_done (s : CrawlState)
    (h : ∀ pr ∈ s.zipcodes, (pr : String × ZipcodeEntry).2.status ≠ ZStatus.pending ∧
      (pr.2.status ≠ ZStatus.zerror → ∀ p ∈ pr.2.plans, p.status ≠ PStatus.pending)) :
    phase1Pending s = [] ∧ plansToFill s = [] ∧
      ∀ o1 o2, schedulerRun o1 o2 s = s := by
  have h1 : phase1Pending s = [] := by
    rw [phase1Pending, List.filter_eq_nil]
    intro e he
    obtain ⟨z, _, hlk⟩ := List.mem_filterMap.mp he
    have := (h (z, e) (alookup_mem hlk)).1
    simpa using this
  have h2 : plansToFill s = [] := by
    rw [plansToFill]
    rw [List.bind_eq_nil]
    intro z _
    cases hlk : alookup s.zipcodes z with
    | none => simp [planFillTasks, hlk]
    | some e =>
      simp only [planFillTasks, hlk]
      by_cases hstat : e.status = ZStatus.zerror ∨ e.status = ZStatus.pending
      · rw [if_pos hstat]
      · rw [if_neg hstat]
        push_neg at hstat
        exact pendingPlanIdx_nil z e.plans 0 ((h (z, e) (alookup_mem hlk)).2 hstat.1)
  refine ⟨h1, h2, fun o1 o2 => ?_⟩
  rw [schedulerRun]
  simp only [h1, List.foldl_nil, h2]

/-! ## Counting entries along `zipcodeOrder`

`orderSum ord m f` sums `f` over the entries that the keys of `ord`
resolve to (missing keys contribute nothing).  The counter invariants of
C4 are stated with it. -/

/-- The contribution of one key: `f` of its entry, `0` when absent. -/
def entryVal (m : ZMap) (f : ZipcodeEntry → Nat) (k : String) : Nat :=
  match alookup m k with | some e => f e | none => 0

theorem entryVal_some {m : ZMap} {k : String} {e : ZipcodeEntry} (f : ZipcodeEntry → Nat)
    (h : alookup m k = some e) : entryVal m f k = f e := by
  rw [entryVal, h]

theorem entryVal_none {m : ZMap} {k : String} (f : ZipcodeEntry → Nat)
    (h : alookup m k = none) : entryVal m f k = 0 := by
  rw [entryVal, h]

def orderSum (ord : List String) (m : ZMap) (f : ZipcodeEntry → Nat) : Nat :=
  (ord.map (entryVal m f)).sum

theorem map_sum_update (ord : List String) (v w : String → Nat) (z : String)
    (hnd : ord.Nodup) (hz : z ∈ ord) (hagree : ∀ k, k ≠ z → w k = v k) :
    (ord.map w).sum + v z = (ord.map v).sum + w z := by
  induction ord with
  | nil => cases hz
  | cons a rest ih =>
    obtain ⟨hnotmem, hnd'⟩ := List.nodup_cons.mp hnd
    rcases List.mem_cons.mp hz with rfl | hmem
    · have hrest : ∀ k ∈ rest, w k = v k :=
        fun k hk => hagree k (fun he => hnotmem (he ▸ hk))
      rw [List.map_cons, List.map_cons, List.sum_cons, List.sum_cons,
        List.map_congr_left hrest]
      omega
    · have ha : a ≠ z := fun he => hnotmem (he ▸ hmem)
      have := ih hnd' hmem
      rw [List.map_cons, List.map_cons, List.sum_cons, List.sum_cons, hagree a ha]
      omega

/-- Replacing the entry of one key of a `Nodup` order changes an
`orderSum` by swapping that key's contribution. -/
theorem orderSum_update (ord : List String) (m : ZMap) (z : String) (e e' : ZipcodeEntry)
    (f : ZipcodeEntry → Nat) (hnd : ord.Nodup) (hz : z ∈ ord)
    (he : alookup m z = some e) :
    orderSum ord (ainsert m z e') f + f e = orderSum ord m f + f e' := by
  have h := map_sum_update ord (entryVal m f) (entryVal (ainsert m z e') f)
    z hnd hz (fun k hk => by rw [entryVal, entryVal, alookup_ainsert, if_neg hk])
  rw [entryVal_some f he] at h
  rw [entryVal_some f (show alookup (ainsert m z e') z = some e' by
    rw [alookup_ainsert, if_pos rfl])] at h
  exact h

theorem orderSum_zero (ord : List String) (m : ZMap) (f : ZipcodeEntry → Nat)
    (h : ∀ k e, alookup m k = some e → f e = 0) : orderSum ord m f = 0 := by
  induction ord with
  | nil => rfl
  | cons a rest ih =>
    rw [orderSum, List.map_cons, List.sum_cons]
    rw [orderSum] at ih
    cases hlk : alookup m a with
    | none => rw [entryVal_none f hlk]; simpa using ih
    | some e => rw [entryVal_some f hlk, h a e hlk]; simpa using ih

theorem orderSum_le_length (ord : List String) (m : ZMap) (f : ZipcodeEntry → Nat)
    (h : ∀ e, f e ≤ 1) : orderSum ord m f ≤ ord.length := by
  induction ord with
  | nil => exact Nat.le_refl 0
  | cons a rest ih =>
    rw [orderSum, List.map_cons, List.sum_cons, List.length_cons]
    rw [orderSum] at ih
    cases hlk : alookup m a with
    | none => rw [entryVal_none f hlk]; omega
    | some e => rw [entryVal_some f hlk]; have := h e; omega

theorem orderSum_mono (ord : List String) (m : ZMap) (f g : ZipcodeEntry → Nat)
    (h : ∀ k e, alookup m k = some e → f e ≤ g e) :
    orderSum ord m f ≤ orderSum ord m g := by
  induction ord with
  | nil => exact Nat.le_refl 0
  | cons a rest ih =>
    rw [orderSum, orderSum, List.map_cons, List.map_cons, List.sum_cons, List.sum_cons]
    rw [orderSum, orderSum] at ih
    cases hlk : alookup m a with
    | none => rw [entryVal_none f hlk, entryVal_none g hlk]; omega
    | some e =>
      rw [entryVal_some f hlk, entryVal_some g hlk]
      have := h a e hlk
      omega

theorem map_sum_aerase {α : Type} (m : List (String × α)) (k : String) (v : α)
    (g : String × α → Nat) (h : alookup m k = some v) :
    (m.map g).sum = g (k, v) + ((aerase m k).map g).sum := by
  induction m with
  | nil => simp [alookup] at h
  | cons p rest ih =>
    obtain ⟨k', v'⟩ := p
    by_cases hk : k' = k
    · subst hk
      rw [alookup, if_pos rfl, Option.some.injEq] at h
      subst h
      rw [aerase, if_pos rfl, List.map_cons, List.sum_cons]
    · rw [alookup, if_neg hk] at h
      rw [aerase, if_neg hk, List.map_cons, List.map_cons, List.sum_cons, List.sum_cons, ih h]
      omega

/-- An `orderSum` over a `Nodup` order is bounded by the same sum over
all map entries (each key resolves to a distinct binding). -/
theorem orderSum_le_entries (ord : List String) (m : ZMap) (f : ZipcodeEntry → Nat)
    (hnd : ord.Nodup) :
    orderSum ord m f ≤ (m.map (fun pr => f pr.2)).sum := by
  induction ord generalizing m with
  | nil => exact Nat.zero_le _
  | cons a rest ih =>
    obtain ⟨hnotmem, hnd'⟩ := List.nodup_cons.mp hnd
    rw [orderSum, List.map_cons, List.sum_cons]
    cases hlk : alookup m a with
    | none =>
      have hr := ih m hnd'
      rw [orderSum] at hr
      rw [entryVal_none f hlk]
      omega
    | some e =>
      have hsplit := map_sum_aerase m a e (fun pr => f pr.2) hlk
      have hb : (fun pr : String × ZipcodeEntry => f pr.2) (a, e) = f e := rfl
      rw [hb] at hsplit
      have hrw : rest.map (entryVal m f) = rest.map (entryVal (aerase m a) f) := by
        apply List.map_congr_left
        intro j hj
        rw [entryVal, entryVal, alookup_aerase_ne m a j (fun he => hnotmem (he ▸ hj))]
      have hr := ih (aerase m a) hnd'
      rw [orderSum] at hr
      rw [entryVal_some f hlk, hrw, hsplit]
      omega

/-! ## The C4 invariant -/

/-- Indicator: entry is `PENDING`. -/
def isPendingInd (e : ZipcodeEntry) : Nat :=
  if e.status = ZStatus.pending then 1 else 0

/-- Indicator: entry has finished phase 1 (`URLS_COLLECTED` or
`COMPLETED`). -/
def isPhase1DoneInd (e : ZipcodeEntry) : Nat :=
  if e.status = ZStatus.urlsCollected ∨ e.status = ZStatus.completed then 1 else 0

/-- Indicator: entry is `COMPLETED`. -/
def isCompletedInd (e : ZipcodeEntry) : Nat :=
  if e.status = ZStatus.completed then 1 else 0

/-- The `totalPlansFound` contribution of an entry. -/
def foundContrib (e : ZipcodeEntry) : Nat :=
  if e.status = ZStatus.urlsCollected ∨ e.status = ZStatus.completed then e.totalPlans else 0

/-- The `totalPlansFilled` contribution of an entry. -/
def filledContrib (e : ZipcodeEntry) : Nat :=
  countCompleted e.plans

/-- The per-entry portion of the state invariant. -/
structure EntryInv (e : ZipcodeEntry) : Prop where
  total_eq : e.totalPlans = e.plans.length
  no_plans : e.status = ZStatus.pending ∨ e.status = ZStatus.zerror → e.plans = []
  pwd_eq : e.plansWithDetails = countCompleted e.plans
  completed_terminal : e.status = ZStatus.completed → ∀ p ∈ e.plans, p.status ≠ PStatus.pending
  pending_null : ∀ p ∈ e.plans, p.status = PStatus.pending → p.details = none

/-- The full state invariant: per-entry facts plus the relations between
the metadata counters and the statuses along `zipcodeOrder`. -/
structure Inv (s : CrawlState) : Prop where
  ord_nodup : s.zipcodeOrder.Nodup
  entries : ∀ k e, alookup s.zipcodes k = some e → EntryInv e
  countA : s.metadata.phase1Completed + orderSum s.zipcodeOrder s.zipcodes isPendingInd ≤
    s.metadata.totalZipcodes
  countB : orderSum s.zipcodeOrder s.zipcodes isPhase1DoneInd ≤ s.metadata.phase1Completed
  countC : s.metadata.phase2Completed ≤ orderSum s.zipcodeOrder s.zipcodes isCompletedInd
  countD : s.metadata.totalPlansFound = orderSum s.zipcodeOrder s.zipcodes foundContrib
  countE : s.metadata.totalPlansFilled = orderSum s.zipcodeOrder s.zipcodes filledContrib

theorem entryInv_createZipcodeEntry (z : ZInfo) (i : Nat) :
    EntryInv (createZipcodeEntry z i) := by
  constructor <;> simp [createZipcodeEntry, countCompleted]

theorem entryInv_index_update {e : ZipcodeEntry} (h : EntryInv e) (i : Nat) :
    EntryInv { e with index := i } := by
  obtain ⟨h1, h2, h3, h4, h5⟩ := h
  exact ⟨h1, h2, h3, h4, h5⟩

/-! ## Lookups in the initialized and merged entry maps -/

theorem initEntries_lookup (input : List ZInfo) (m : ZMap) (idx : Nat) (k : String)
    (e : ZipcodeEntry) (h : alookup (initEntries m idx input) k = some e) :
    (∃ z i, e = createZipcodeEntry z i) ∨ alookup m k = some e := by
  induction input generalizing m idx with
  | nil => exact Or.inr h
  | cons z rest ih =>
    rw [initEntries] at h
    rcases ih _ _ h with hnew | hold
    · exact Or.inl hnew
    · rw [alookup_ainsert] at hold
      by_cases hk : k = z.zipcode
      · rw [if_pos hk] at hold
        exact Or.inl ⟨z, idx, (Option.some.injEq _ _ ▸ hold).symm⟩
      · rw [if_neg hk] at hold
        exact Or.inr hold

theorem mergeRow_cases (existing : ZMap) (z : ZInfo) (idx : Nat) :
    (∃ e0, alookup existing z.zipcode = some e0 ∧
        mergeRow existing z idx = { e0 with index := idx }) ∨
      mergeRow existing z idx = createZipcodeEntry z idx := by
  cases hlk : alookup existing z.zipcode with
  | some e0 => exact Or.inl ⟨e0, rfl, by simp [mergeRow, hlk]⟩
  | none => exact Or.inr (by simp [mergeRow, hlk])

theorem mergeEntries_lookup (input : List ZInfo) (existing m : ZMap) (idx : Nat)
    (k : String) (e : ZipcodeEntry)
    (h : alookup (mergeEntries existing m idx input) k = some e) :
    (∃ e0 i, alookup existing k = some e0 ∧ e = { e0 with index := i }) ∨
      (∃ z i, e = createZipcodeEntry z i) ∨ alookup m k = some e := by
  induction input generalizing m idx with
  | nil => exact Or.inr (Or.inr h)
  | cons z rest ih =>
    rw [mergeEntries] at h
    rcases ih _ _ h with hupd | hnew | hold
    · exact Or.inl hupd
    · exact Or.inr (Or.inl hnew)
    · rw [alookup_ainsert] at hold
      by_cases hk : k = z.zipcode
      · rw [if_pos hk] at hold
        have he : e = mergeRow existing z idx := (Option.some.injEq _ _ ▸ hold).symm
        subst hk
        rcases mergeRow_cases existing z idx with ⟨e0, hlk, hrow⟩ | hrow
        · exact Or.inl ⟨e0, idx, hlk, he.trans hrow⟩
        · exact Or.inr (Or.inl ⟨z, idx, he.trans hrow⟩)
      · rw [if_neg hk] at hold
        exact Or.inr (Or.inr hold)

theorem mergeEntries_lookup_not_mem (input : List ZInfo) (existing m : ZMap) (idx : Nat)
    (k : String) (hk : k ∉ input.map (fun z => z.zipcode)) :
    alookup (mergeEntries existing m idx input) k = alookup m k := by
  induction input generalizing m idx with
  | nil => rfl
  | cons z rest ih =>
    have hkz : k ≠ z.zipcode := fun he => hk (by simp [he])
    have hkrest : k ∉ rest.map (fun z => z.zipcode) := fun hm => hk (List.mem_cons_of_mem _ hm)
    rw [mergeEntries, ih _ _ hkrest, alookup_ainsert, if_neg hkz]

/-! ## The recounted merge counters as sums over the input -/

/-- Generic sum over the merge input: `f` of the snapshot entry when the
key exists, a fixed value `fnew` for keys that get a fresh entry. -/
def mergeSumF (existing : ZMap) (f : ZipcodeEntry → Nat) (fnew : Nat) : List ZInfo → Nat
  | [] => 0
  | z :: rest =>
    (match alookup existing z.zipcode with
     | some e => f e
     | none => fnew) + mergeSumF existing f fnew rest

/-- After the merge loop, summing `f` over the new order in the new map
is the `mergeSumF` over the input, provided `f` ignores `index` and is
constant on freshly created entries. -/
theorem orderSum_mergeEntries (input : List ZInfo) (existing m : ZMap) (idx : Nat)
    (f : ZipcodeEntry → Nat) (fnew : Nat)
    (hf : ∀ e i, f { e with index := i } = f e)
    (hnew : ∀ z i, f (createZipcodeEntry z i) = fnew)
    (hnd : (input.map (fun z => z.zipcode)).Nodup) :
    orderSum (input.map (fun z => z.zipcode)) (mergeEntries existing m idx input) f =
      mergeSumF existing f fnew input := by
  induction input generalizing m idx with
  | nil => rfl
  | cons z rest ih =>
    rw [List.map_cons] at hnd
    obtain ⟨hnotmem, hnd'⟩ := List.nodup_cons.mp hnd
    rw [List.map_cons, orderSum, List.map_cons, List.sum_cons, mergeSumF, mergeEntries]
    have hlk2 : alookup (mergeEntries existing
        (ainsert m z.zipcode (mergeRow existing z idx)) (idx + 1) rest) z.zipcode =
        some (mergeRow existing z idx) := by
      rw [mergeEntries_lookup_not_mem rest existing _ _ _ hnotmem, alookup_ainsert, if_pos rfl]
    rw [entryVal_some f hlk2]
    have hih := ih (ainsert m z.zipcode (mergeRow existing z idx)) (idx + 1) hnd'
    rw [orderSum] at hih
    have hrow : f (mergeRow existing z idx) =
        (match alookup existing z.zipcode with | some e => f e | none => fnew) := by
      cases hlk : alookup existing z.zipcode with
      | some e0 => simp [mergeRow, hlk, hf]
      | none => simp [mergeRow, hlk, hnew]
    rw [hrow, hih]

theorem mergePhase1Done_eq (existing : ZMap) (input : List ZInfo) :
    mergePhase1Done existing input = mergeSumF existing isPhase1DoneInd 0 input := by
  induction input with
  | nil => rfl
  | cons z rest ih =>
    rw [mergePhase1Done, mergeSumF, ih]
    cases alookup existing z.zipcode <;> rfl

theorem mergePhase2Done_eq (existing : ZMap) (input : List ZInfo) :
    mergePhase2Done existing input = mergeSumF existing isCompletedInd 0 input := by
  induction input with
  | nil => rfl
  | cons z rest ih =>
    rw [mergePhase2Done, mergeSumF, ih]
    cases alookup existing z.zipcode <;> rfl

theorem mergeTotalPlans_eq (existing : ZMap) (input : List ZInfo) :
    mergeTotalPlans existing input = mergeSumF existing foundContrib 0 input := by
  induction input with
  | nil => rfl
  | cons z rest ih =>
    rw [mergeTotalPlans, mergeSumF, ih]
    cases alookup existing z.zipcode <;> rfl

/-- The recounted `filledPlans` agrees with the direct completed-plan
count once completed entries carry an accurate `plansWithDetails`. -/
theorem mergeFilledPlans_eq (existing : ZMap) (input : List ZInfo)
    (hent : ∀ k e, alookup existing k = some e → EntryInv e) :
    mergeFilledPlans existing input = mergeSumF existing filledContrib 0 input := by
  induction input with
  | nil => rfl
  | cons z rest ih =>
    rw [mergeFilledPlans, mergeSumF, ih]
    cases hlk : alookup existing z.zipcode with
    | none => rfl
    | some e =>
      by_cases hc : e.status = ZStatus.completed
      · simp [filledContrib, hc, (hent _ _ hlk).pwd_eq]
      · simp [filledContrib, hc]

/-- Per input row, phase-1-done and pending contributions total at most
one, so the recounted `phase1Completed` plus the pending count is
bounded by the input length. -/
theorem mergeSum_pending_bound (existing : ZMap) (input : List ZInfo) :
    mergePhase1Done existing input + mergeSumF existing isPendingInd 1 input ≤
      input.length := by
  induction input with
  | nil => exact Nat.le_refl 0
  | cons z rest ih =>
    rw [mergePhase1Done, mergeSumF, List.length_cons]
    cases hlk : alookup existing z.zipcode with
    | none =>
      have hred : (match (none : Option ZipcodeEntry) with
          | some e => (if e.status = ZStatus.urlsCollected ∨ e.status = ZStatus.completed
              then 1 else 0)
          | none => 0) = 0 := rfl
      have hred2 : (match (none : Option ZipcodeEntry) with
          | some e => isPendingInd e
          | none => 1) = 1 := rfl
      omega
    | some e =>
      have hred : (match (some e : Option ZipcodeEntry) with
          | some e => (if e.status = ZStatus.urlsCollected ∨ e.status = ZStatus.completed
              then 1 else 0)
          | none => 0) = (if e.status = ZStatus.urlsCollected ∨ e.status = ZStatus.completed
              then 1 else 0) := rfl
      have hred2 : (match (some e : Option ZipcodeEntry) with
          | some e => isPendingInd e
          | none => 1) = isPendingInd e := rfl
      have hone : (if e.status = ZStatus.urlsCollected ∨ e.status = ZStatus.completed
          then 1 else 0) + isPendingInd e ≤ 1 := by
        rw [isPendingInd]
        cases hst : e.status <;> simp
      omega

/-! ## Completed-plan counting helpers -/

theorem countCompleted_cons (q : PlanEntry) (t : List PlanEntry) :
    countCompleted (q :: t) =
      (if q.status = PStatus.completed then 1 else 0) + countCompleted t := by
  by_cases h : q.status = PStatus.completed <;>
    simp [countCompleted, List.filter_cons, h] <;> omega

theorem countCompleted_zero_of_pending (l : List PlanEntry)
    (h : ∀ q ∈ l, q.status = PStatus.pending) : countCompleted l = 0 := by
  induction l with
  | nil => rfl
  | cons q t ih =>
    rw [countCompleted_cons, if_neg (by rw [h q (List.mem_cons_self _ _)]; decide),
      ih (fun q hq => h q (List.mem_cons_of_mem _ hq))]

theorem countCompleted_le_length (l : List PlanEntry) : countCompleted l ≤ l.length :=
  List.length_filter_le _ l

theorem countCompleted_set (l : List PlanEntry) (i : Nat) (p p' : PlanEntry)
    (h : l.get? i = some p) :
    countCompleted (l.set i p') + (if p.status = PStatus.completed then 1 else 0) =
      countCompleted l + (if p'.status = PStatus.completed then 1 else 0) := by
  induction l generalizing i with
  | nil => simp [List.get?] at h
  | cons q t ih =>
    cases i with
    | zero =>
      rw [List.get?_cons_zero, Option.some.injEq] at h
      subst h
      rw [List.set_cons_zero, countCompleted_cons, countCompleted_cons]
      omega
    | succ i' =>
      rw [List.get?_cons_succ] at h
      rw [List.set_cons_succ, countCompleted_cons, countCompleted_cons]
      have := ih i' h
      omega

/-! ## The invariant holds after initialization and after merge -/

theorem inv_initializeState (input : List ZInfo) (workers : Nat) (now : String)
    (hnd : (input.map (fun z => z.zipcode)).Nodup) :
    Inv (initializeState input workers now) := by
  have hlook : ∀ k e, alookup (initEntries [] 0 input) k = some e →
      ∃ z i, e = createZipcodeEntry z i := by
    intro k e h
    rcases initEntries_lookup input [] 0 k e h with hnew | habs
    · exact hnew
    · rw [alookup] at habs
      cases habs
  refine ⟨hnd, ?_, ?_, ?_, ?_, ?_, ?_⟩
  · intro k e h
    obtain ⟨z, i, rfl⟩ := hlook k e h
    exact entryInv_createZipcodeEntry z i
  · show 0 + orderSum (input.map (fun z => z.zipcode)) (initEntries [] 0 input)
        isPendingInd ≤ input.length
    have hle := orderSum_le_length (input.map (fun z => z.zipcode)) (initEntries [] 0 input)
      isPendingInd (fun e => by rw [isPendingInd]; split <;> omega)
    rw [List.length_map] at hle
    omega
  · show orderSum (input.map (fun z => z.zipcode)) (initEntries [] 0 input)
        isPhase1DoneInd ≤ 0
    refine Nat.le_of_eq (orderSum_zero _ _ _ ?_)
    intro k e h
    obtain ⟨z, i, rfl⟩ := hlook k e h
    simp [isPhase1DoneInd, createZipcodeEntry]
  · exact Nat.zero_le _
  · show 0 = orderSum (input.map (fun z => z.zipcode)) (initEntries [] 0 input) foundContrib
    refine (orderSum_zero _ _ _ ?_).symm
    intro k e h
    obtain ⟨z, i, rfl⟩ := hlook k e h
    simp [foundContrib, createZipcodeEntry]
  · show 0 = orderSum (input.map (fun z => z.zipcode)) (initEntries [] 0 input) filledContrib
    refine (orderSum_zero _ _ _ ?_).symm
    intro k e h
    obtain ⟨z, i, rfl⟩ := hlook k e h
    simp [filledContrib, createZipcodeEntry, countCompleted]

theorem inv_mergeState (input : List ZInfo) (workers : Nat) (s : CrawlState)
    (hs : Inv s) (hnd : (input.map (fun z => z.zipcode)).Nodup) :
    Inv (mergeState input workers s) := by
  have hentries : ∀ k e, alookup (mergeEntries s.zipcodes s.zipcodes 0 input) k = some e →
      EntryInv e := by
    intro k e h
    rcases mergeEntries_lookup input s.zipcodes s.zipcodes 0 k e h with
      ⟨e0, i, hlk, rfl⟩ | ⟨z, i, rfl⟩ | hold
    · exact entryInv_index_update (hs.entries k e0 hlk) i
    · exact entryInv_createZipcodeEntry z i
    · exact hs.entries k e hold
  refine ⟨hnd, hentries, ?_, ?_, ?_, ?_, ?_⟩
  · show mergePhase1Done s.zipcodes input + orderSum (input.map (fun z => z.zipcode))
        (mergeEntries s.zipcodes s.zipcodes 0 input) isPendingInd ≤ input.length
    rw [orderSum_mergeEntries input s.zipcodes s.zipcodes 0 isPendingInd 1
      (fun e i => rfl) (fun z i => rfl) hnd]
    exact mergeSum_pending_bound s.zipcodes input
  · show orderSum (input.map (fun z => z.zipcode))
        (mergeEntries s.zipcodes s.zipcodes 0 input) isPhase1DoneInd ≤
      mergePhase1Done s.zipcodes input
    rw [orderSum_mergeEntries input s.zipcodes s.zipcodes 0 isPhase1DoneInd 0
      (fun e i => rfl) (fun z i => rfl) hnd, mergePhase1Done_eq]
  · show mergePhase2Done s.zipcodes input ≤ orderSum (input.map (fun z => z.zipcode))
        (mergeEntries s.zipcodes s.zipcodes 0 input) isCompletedInd
    rw [orderSum_mergeEntries input s.zipcodes s.zipcodes 0 isCompletedInd 0
      (fun e i => rfl) (fun z i => rfl) hnd, mergePhase2Done_eq]
  · show mergeTotalPlans s.zipcodes input = orderSum (input.map (fun z => z.zipcode))
        (mergeEntries s.zipcodes s.zipcodes 0 input) foundContrib
    rw [orderSum_mergeEntries input s.zipcodes s.zipcodes 0 foundContrib 0
      (fun e i => rfl) (fun z i => rfl) hnd, mergeTotalPlans_eq]
  · show mergeFilledPlans s.zipcodes input = orderSum (input.map (fun z => z.zipcode))
        (mergeEntries s.zipcodes s.zipcodes 0 input) filledContrib
    rw [orderSum_mergeEntries input s.zipcodes s.zipcodes 0 filledContrib 0
      (fun e i => rfl) (fun z i => rfl) hnd, mergeFilledPlans_eq s.zipcodes input hs.entries]

/-! ## The invariant is preserved by every task-completion handler

All four handlers replace one looked-up entry and bump some counters;
`inv_step` packages the common argument. -/

theorem inv_step (s : CrawlState) (z : String) (e e' : ZipcodeEntry)
    (dP1 dP2 dFound dFilled : Nat)
    (hs : Inv s) (hz : z ∈ s.zipcodeOrder) (he : alookup s.zipcodes z = some e)
    (hinv' : EntryInv e')
    (hA : isPendingInd e' + dP1 ≤ isPendingInd e)
    (hB : isPhase1DoneInd e' ≤ isPhase1DoneInd e + dP1)
    (hC : isCompletedInd e + dP2 ≤ isCompletedInd e')
    (hD : foundContrib e' = foundContrib e + dFound)
    (hE : filledContrib e' = filledContrib e + dFilled) :
    Inv { s with
          zipcodes := ainsert s.zipcodes z e'
          metadata := { s.metadata with
            phase1Completed := s.metadata.phase1Completed + dP1
            phase2Completed := s.metadata.phase2Completed + dP2
            totalPlansFound := s.metadata.totalPlansFound + dFound
            totalPlansFilled := s.metadata.totalPlansFilled + dFilled } } := by
  refine ⟨hs.ord_nodup, ?_, ?_, ?_, ?_, ?_, ?_⟩
  · show ∀ k e2, alookup (ainsert s.zipcodes z e') k = some e2 → EntryInv e2
    intro k e2 h2
    rw [alookup_ainsert] at h2
    by_cases hk : k = z
    · rw [if_pos hk, Option.some.injEq] at h2
      exact h2 ▸ hinv'
    · rw [if_neg hk] at h2
      exact hs.entries k e2 h2
  · show s.metadata.phase1Completed + dP1 +
      orderSum s.zipcodeOrder (ainsert s.zipcodes z e') isPendingInd ≤
      s.metadata.totalZipcodes
    have hupd := orderSum_update s.zipcodeOrder s.zipcodes z e e' isPendingInd
      hs.ord_nodup hz he
    have := hs.countA
    omega
  · show orderSum s.zipcodeOrder (ainsert s.zipcodes z e') isPhase1DoneInd ≤
      s.metadata.phase1Completed + dP1
    have hupd := orderSum_update s.zipcodeOrder s.zipcodes z e e' isPhase1DoneInd
      hs.ord_nodup hz he
    have := hs.countB
    omega
  · show s.metadata.phase2Completed + dP2 ≤
      orderSum s.zipcodeOrder (ainsert s.zipcodes z e') isCompletedInd
    have hupd := orderSum_update s.zipcodeOrder s.zipcodes z e e' isCompletedInd
      hs.ord_nodup hz he
    have := hs.countC
    omega
  · show s.metadata.totalPlansFound + dFound =
      orderSum s.zipcodeOrder (ainsert s.zipcodes z e') foundContrib
    have hupd := orderSum_update s.zipcodeOrder s.zipcodes z e e' foundContrib
      hs.ord_nodup hz he
    have := hs.countD
    omega
  · show s.metadata.totalPlansFilled + dFilled =
      orderSum s.zipcodeOrder (ainsert s.zipcodes z e') filledContrib
    have hupd := orderSum_update s.zipcodeOrder s.zipcodes z e e' filledContrib
      hs.ord_nodup hz he
    have := hs.countE
    omega

theorem inv_p1success (s : CrawlState) (z : String) (plans : List PlanEntry)
    (t1 t2 : String) (e : ZipcodeEntry)
    (hs : Inv s) (hz : z ∈ s.zipcodeOrder) (he : alookup s.zipcodes z = some e)
    (hp : e.status = ZStatus.pending)
    (hfresh : ∀ q ∈ plans, q.status = PStatus.pending ∧ q.details = none) :
    Inv (p1HandlerSuccess z plans t1 t2 s) := by
  have hei := hs.entries z e he
  have hpl : e.plans = [] := hei.no_plans (Or.inl hp)
  have hcnt0 : countCompleted plans = 0 :=
    countCompleted_zero_of_pending plans (fun q hq => (hfresh q hq).1)
  have hstate : p1HandlerSuccess z plans t1 t2 s =
      { s with
        zipcodes := ainsert s.zipcodes z
          { e with phase1StartedAt := some t1, plans := plans, totalPlans := plans.length,
                   status := ZStatus.urlsCollected, phase1CompletedAt := some t2 }
        metadata := { s.metadata with
          phase1Completed := s.metadata.phase1Completed + 1
          totalPlansFound := s.metadata.totalPlansFound + plans.length } } := by
    simp only [p1HandlerSuccess, he]
  rw [hstate]
  have hinv' : EntryInv { e with
      phase1StartedAt := some t1, plans := plans,
      totalPlans := plans.length, status := ZStatus.urlsCollected,
      phase1CompletedAt := some t2 } := by
    refine ⟨rfl, ?_, ?_, ?_, ?_⟩
    · intro hcon
      rcases hcon with hcon | hcon <;> cases hcon
    · show e.plansWithDetails = countCompleted plans
      rw [hei.pwd_eq, hpl, hcnt0]
      rfl
    · intro hcon
      cases hcon
    · intro q hq hqp
      exact (hfresh q hq).2
  exact inv_step s z e _ 1 0 plans.length 0 hs hz he hinv'
    (by simp [isPendingInd, hp])
    (by simp [isPhase1DoneInd])
    (by simp [isCompletedInd, hp])
    (by simp [foundContrib, hp])
    (by show countCompleted plans = countCompleted e.plans + 0
        rw [hpl, hcnt0]
        rfl)

theorem inv_p1error (s : CrawlState) (z msg t1 t2 : String) (e : ZipcodeEntry)
    (hs : Inv s) (hz : z ∈ s.zipcodeOrder) (he : alookup s.zipcodes z = some e)
    (hp : e.status = ZStatus.pending) :
    Inv (p1HandlerError z msg t1 t2 s) := by
  have hei := hs.entries z e he
  have hpl : e.plans = [] := hei.no_plans (Or.inl hp)
  have hstate : p1HandlerError z msg t1 t2 s =
      { s with
        zipcodes := ainsert s.zipcodes z
          { e with phase1StartedAt := some t1, status := ZStatus.zerror, zerr := some msg,
                   phase1CompletedAt := some t2 }
        metadata := { s.metadata with
          phase1Completed := s.metadata.phase1Completed + 1 } } := by
    simp only [p1HandlerError, he]
  rw [hstate]
  have hinv' : EntryInv { e with
      phase1StartedAt := some t1, status := ZStatus.zerror,
      zerr := some msg, phase1CompletedAt := some t2 } := by
    refine ⟨hei.total_eq, fun _ => hpl, hei.pwd_eq, ?_, hei.pending_null⟩
    intro hcon
    cases hcon
  exact inv_step s z e _ 1 0 0 0 hs hz he hinv'
    (by simp [isPendingInd, hp])
    (by simp [isPhase1DoneInd, hp])
    (by simp [isCompletedInd, hp])
    (by simp [foundContrib, hp])
    (by show countCompleted e.plans = countCompleted e.plans + 0
        rfl)

theorem inv_p1failed (s : CrawlState) (z : String) (e : ZipcodeEntry)
    (hs : Inv s) (hz : z ∈ s.zipcodeOrder) (he : alookup s.zipcodes z = some e)
    (hp : e.status = ZStatus.pending) :
    Inv (p1HandlerFailed z s) := by
  have hei := hs.entries z e he
  have hpl : e.plans = [] := hei.no_plans (Or.inl hp)
  have hstate : p1HandlerFailed z s =
      { s with
        zipcodes := ainsert s.zipcodes z
          { e with status := ZStatus.zerror, zerr := some "Max retries exceeded" }
        metadata := { s.metadata with
          phase1Completed := s.metadata.phase1Completed + 1 } } := by
    simp only [p1HandlerFailed, he]
  rw [hstate]
  have hinv' : EntryInv { e with
      status := ZStatus.zerror,
      zerr := some "Max retries exceeded" } := by
    refine ⟨hei.total_eq, fun _ => hpl, hei.pwd_eq, ?_, hei.pending_null⟩
    intro hcon
    cases hcon
  exact inv_step s z e _ 1 0 0 0 hs hz he hinv'
    (by simp [isPendingInd, hp])
    (by simp [isPhase1DoneInd, hp])
    (by simp [isCompletedInd, hp])
    (by simp [foundContrib, hp])
    (by show countCompleted e.plans = countCompleted e.plans + 0
        rfl)

theorem fillPlanDetails_status (p : PlanEntry) (nav : Except String String) (now : String) :
    (fillPlanDetails p nav now).1.status = PStatus.completed ∨
      (fillPlanDetails p nav now).1.status = PStatus.perror := by
  rw [fillPlanDetails.eq_def]
  by_cases hu : p.detailsUrl = none
  · rw [if_pos hu]
    exact Or.inl rfl
  · rw [if_neg hu]
    cases nav with
    | ok d => exact Or.inl rfl
    | error msg => exact Or.inr rfl

theorem inv_p2finish (s : CrawlState) (z : String) (i : Nat)
    (nav : Except String String) (now : String) (e : ZipcodeEntry) (p : PlanEntry)
    (hs : Inv s) (hz : z ∈ s.zipcodeOrder) (he : alookup s.zipcodes z = some e)
    (hst1 : e.status ≠ ZStatus.zerror) (hst2 : e.status ≠ ZStatus.pending)
    (hp : e.plans.get? i = some p) (hpd : p.status = PStatus.pending) :
    Inv (p2Handler z i nav now s) := by
  have hei := hs.entries z e he
  have hpmem : p ∈ e.plans := List.get?_mem hp
  have hUC : e.status = ZStatus.urlsCollected := by
    cases hstat : e.status with
    | pending => exact absurd hstat hst2
    | urlsCollected => rfl
    | completed => exact absurd hpd (hei.completed_terminal hstat p hpmem)
    | zerror => exact absurd hstat hst1
  have hPnp : (fillPlanDetails p nav now).1.status ≠ PStatus.pending := by
    rcases fillPlanDetails_status p nav now with h | h <;> rw [h] <;> decide
  have hcnt := countCompleted_set e.plans i p (fillPlanDetails p nav now).1 hp
  have hind0 : (if p.status = PStatus.completed then 1 else 0) = 0 := by
    rw [hpd]
    rfl
  have htotal : e.totalPlans = (e.plans.set i (fillPlanDetails p nav now).1).length := by
    rw [List.length_set]
    exact hei.total_eq
  have hnull : ∀ q ∈ e.plans.set i (fillPlanDetails p nav now).1,
      q.status = PStatus.pending → q.details = none := by
    intro q hq hqs
    rcases List.mem_or_eq_of_mem_set hq with hmem | heq
    · exact hei.pending_null q hmem hqs
    · rw [heq] at hqs
      exact absurd hqs hPnp
  have hstate : p2Handler z i nav now s = p2Result z i nav now s e p := by
    simp only [p2Handler, he, hp]
  rw [hstate]
  by_cases hDone : ((e.plans.set i (fillPlanDetails p nav now).1).all
      (fun q => decide (q.status ≠ PStatus.pending))) = true
  · have hall : ∀ q ∈ e.plans.set i (fillPlanDetails p nav now).1,
        q.status ≠ PStatus.pending := fun q hq =>
      of_decide_eq_true (List.all_eq_true.mp hDone q hq)
    by_cases hC : (fillPlanDetails p nav now).1.status = PStatus.completed
    · have hind1 : (if (fillPlanDetails p nav now).1.status = PStatus.completed
          then 1 else 0) = 1 := by rw [if_pos hC]
      have hstate2 : p2Result z i nav now s e p =
          { s with
            zipcodes := ainsert s.zipcodes z
              { e with
                plans := e.plans.set i (fillPlanDetails p nav now).1,
                plansWithDetails := e.plansWithDetails + 1,
                status := ZStatus.completed, phase2CompletedAt := some now }
            metadata := { s.metadata with
              totalPlansFilled := s.metadata.totalPlansFilled + 1
              phase2Completed := s.metadata.phase2Completed + 1 } } := by
        simp only [p2Result]
        rw [if_pos hC, if_pos hC, if_pos hDone, if_pos hDone]
      rw [hstate2]
      have hinv' : EntryInv { e with
          plans := e.plans.set i (fillPlanDetails p nav now).1,
          plansWithDetails := e.plansWithDetails + 1,
          status := ZStatus.completed, phase2CompletedAt := some now } := by
        refine ⟨htotal, ?_, ?_, ?_, hnull⟩
        · intro hcon
          rcases hcon with hcon | hcon <;> cases hcon
        · show e.plansWithDetails + 1 = countCompleted (e.plans.set i (fillPlanDetails p nav now).1)
          have := hei.pwd_eq
          omega
        · intro _ q hq
          exact hall q hq
      exact inv_step s z e _ 0 1 0 1 hs hz he hinv'
        (by simp [isPendingInd, hUC])
        (by simp [isPhase1DoneInd, hUC])
        (by simp [isCompletedInd, hUC])
        (by simp [foundContrib, hUC])
        (by show countCompleted (e.plans.set i (fillPlanDetails p nav now).1) =
              countCompleted e.plans + 1
            omega)
    · have hind1 : (if (fillPlanDetails p nav now).1.status = PStatus.completed
          then 1 else 0) = 0 := by rw [if_neg hC]
      have hstate2 : p2Result z i nav now s e p =
          { s with
            zipcodes := ainsert s.zipcodes z
              { e with
                plans := e.plans.set i (fillPlanDetails p nav now).1,
                status := ZStatus.completed, phase2CompletedAt := some now }
            metadata := { s.metadata with
              phase2Completed := s.metadata.phase2Completed + 1 } } := by
        simp only [p2Result]
        rw [if_neg hC, if_neg hC, if_pos hDone, if_pos hDone]
      rw [hstate2]
      have hinv' : EntryInv { e with
          plans := e.plans.set i (fillPlanDetails p nav now).1,
          status := ZStatus.completed, phase2CompletedAt := some now } := by
        refine ⟨htotal, ?_, ?_, ?_, hnull⟩
        · intro hcon
          rcases hcon with hcon | hcon <;> cases hcon
        · show e.plansWithDetails = countCompleted (e.plans.set i (fillPlanDetails p nav now).1)
          have := hei.pwd_eq
          omega
        · intro _ q hq
          exact hall q hq
      exact inv_step s z e _ 0 1 0 0 hs hz he hinv'
        (by simp [isPendingInd, hUC])
        (by simp [isPhase1DoneInd, hUC])
        (by simp [isCompletedInd, hUC])
        (by simp [foundContrib, hUC])
        (by show countCompleted (e.plans.set i (fillPlanDetails p nav now).1) =
              countCompleted e.plans + 0
            omega)
  · by_cases hC : (fillPlanDetails p nav now).1.status = PStatus.completed
    · have hind1 : (if (fillPlanDetails p nav now).1.status = PStatus.completed
          then 1 else 0) = 1 := by rw [if_pos hC]
      have hstate2 : p2Result z i nav now s e p =
          { s with
            zipcodes := ainsert s.zipcodes z
              { e with
                plans := e.plans.set i (fillPlanDetails p nav now).1,
                plansWithDetails := e.plansWithDetails + 1 }
            metadata := { s.metadata with
              totalPlansFilled := s.metadata.totalPlansFilled + 1 } } := by
        simp only [p2Result]
        rw [if_pos hC, if_pos hC, if_neg hDone, if_neg hDone]
      rw [hstate2]
      have hinv' : EntryInv { e with
          plans := e.plans.set i (fillPlanDetails p nav now).1,
          plansWithDetails := e.plansWithDetails + 1 } := by
        refine ⟨htotal, ?_, ?_, ?_, hnull⟩
        · intro hcon
          rcases hcon with hcon | hcon
          · exact absurd hcon hst2
          · exact absurd hcon hst1
        · show e.plansWithDetails + 1 = countCompleted (e.plans.set i (fillPlanDetails p nav now).1)
          have := hei.pwd_eq
          omega
        · intro hcon
          rw [hUC] at hcon
          cases hcon
      exact inv_step s z e _ 0 0 0 1 hs hz he hinv'
        (by simp [isPendingInd, hUC])
        (by simp [isPhase1DoneInd, hUC])
        (by simp [isCompletedInd, hUC])
        (by simp [foundContrib, hUC])
        (by show countCompleted (e.plans.set i (fillPlanDetails p nav now).1) =
              countCompleted e.plans + 1
            omega)
    · have hind1 : (if (fillPlanDetails p nav now).1.status = PStatus.completed
          then 1 else 0) = 0 := by rw [if_neg hC]
      have hstate2 : p2Result z i nav now s e p =
          { s with
            zipcodes := ainsert s.zipcodes z
              { e with plans := e.plans.set i (fillPlanDetails p nav now).1 } } := by
        simp only [p2Result]
        rw [if_neg hC, if_neg hC, if_neg hDone, if_neg hDone]
      rw [hstate2]
      have hinv' : EntryInv { e with
          plans := e.plans.set i (fillPlanDetails p nav now).1 } := by
        refine ⟨htotal, ?_, ?_, ?_, hnull⟩
        · intro hcon
          rcases hcon with hcon | hcon
          · exact absurd hcon hst2
          · exact absurd hcon hst1
        · show e.plansWithDetails = countCompleted (e.plans.set i (fillPlanDetails p nav now).1)
          have := hei.pwd_eq
          omega
        · intro hcon
          rw [hUC] at hcon
          cases hcon
      exact inv_step s z e _ 0 0 0 0 hs hz he hinv'
        (by simp [isPendingInd, hUC])
        (by simp [isPhase1DoneInd, hUC])
        (by simp [isCompletedInd, hUC])
        (by simp [foundContrib, hUC])
        (by show countCompleted (e.plans.set i (fillPlanDetails p nav now).1) =
              countCompleted e.plans + 0
            omega)

theorem inv_p2error (s : CrawlState) (z : String) (i : Nat) (msg : String)
    (e : ZipcodeEntry) (p : PlanEntry)
    (hs : Inv s) (hz : z ∈ s.zipcodeOrder) (he : alookup s.zipcodes z = some e)
    (hst1 : e.status ≠ ZStatus.zerror) (hst2 : e.status ≠ ZStatus.pending)
    (hp : e.plans.get? i = some p) (hpd : p.status = PStatus.pending) :
    Inv (p2HandlerError z i msg s) := by
  have hei := hs.entries z e he
  have hpmem : p ∈ e.plans := List.get?_mem hp
  have hUC : e.status = ZStatus.urlsCollected := by
    cases hstat : e.status with
    | pending => exact absurd hstat hst2
    | urlsCollected => rfl
    | completed => exact absurd hpd (hei.completed_terminal hstat p hpmem)
    | zerror => exact absurd hstat hst1
  have hcnt := countCompleted_set e.plans i p
    { p with status := PStatus.perror, perr := some msg } hp
  have hind0 : (if p.status = PStatus.completed then 1 else 0) = 0 := by
    rw [hpd]
    rfl
  have hind0' : (if ({ p with status := PStatus.perror, perr := some msg } :
      PlanEntry).status = PStatus.completed then 1 else 0) = 0 := rfl
  have hstate : p2HandlerError z i msg s =
      { s with
        zipcodes := ainsert s.zipcodes z
          { e with
            plans := (e.plans.set i { p with status := PStatus.perror, perr := some msg }) } } := by
    simp only [p2HandlerError, he, hp]
  rw [hstate]
  have hinv' : EntryInv { e with
      plans := (e.plans.set i { p with status := PStatus.perror, perr := some msg }) } := by
    refine ⟨?_, ?_, ?_, ?_, ?_⟩
    · show e.totalPlans = (e.plans.set i _).length
      rw [List.length_set]
      exact hei.total_eq
    · intro hcon
      rcases hcon with hcon | hcon
      · exact absurd hcon hst2
      · exact absurd hcon hst1
    · show e.plansWithDetails = countCompleted (e.plans.set i _)
      have := hei.pwd_eq
      omega
    · intro hcon
      rw [hUC] at hcon
      cases hcon
    · intro q hq hqs
      rcases List.mem_or_eq_of_mem_set hq with hmem | heq
      · exact hei.pending_null q hmem hqs
      · rw [heq] at hqs
        cases hqs
  exact inv_step s z e _ 0 0 0 0 hs hz he hinv'
    (by simp [isPendingInd, hUC])
    (by simp [isPhase1DoneInd, hUC])
    (by simp [isCompletedInd, hUC])
    (by simp [foundContrib, hUC])
    (by show countCompleted (e.plans.set i _) = countCompleted e.plans + 0
        omega)

/-! ## Reachable states

A state is reachable when it arises from `initializeState` on a
duplicate-free input followed by any interleaving of `mergeState` (a
resumed run) and the task-completion handlers, each fired the way `main`
fires them: phase-1 handlers on a `PENDING` entry listed in
`zipcodeOrder` (the `phase1Pending` selection), phase-2 handlers on a
`PENDING` plan of a non-`ERROR`, non-`PENDING` listed entry (the
`plansToFill` selection, each task at most once — Crawlee dedups by
`uniqueKey` — so the plan is still `PENDING` when its handler runs). -/

inductive Reachable : CrawlState → Prop where
  | init (input : List ZInfo) (workers : Nat) (now : String)
      (hnd : (input.map (fun z => z.zipcode)).Nodup) :
      Reachable (initializeState input workers now)
  | merge (s : CrawlState) (input : List ZInfo) (workers : Nat)
      (hs : Reachable s) (hnd : (input.map (fun z => z.zipcode)).Nodup) :
      Reachable (mergeState input workers s)
  | p1success (s : CrawlState) (z : String) (pages : List (List PlanSummary))
      (totalPlans : Nat) (t1 t2 : String) (e : ZipcodeEntry)
      (hs : Reachable s) (hz : z ∈ s.zipcodeOrder)
      (he : alookup s.zipcodes z = some e) (hp : e.status = ZStatus.pending) :
      Reachable (p1HandlerSuccess z (collectPlanUrls pages totalPlans) t1 t2 s)
  | p1error (s : CrawlState) (z msg t1 t2 : String) (e : ZipcodeEntry)
      (hs : Reachable s) (hz : z ∈ s.zipcodeOrder)
      (he : alookup s.zipcodes z = some e) (hp : e.status = ZStatus.pending) :
      Reachable (p1HandlerError z msg t1 t2 s)
  | p1failed (s : CrawlState) (z : String) (e : ZipcodeEntry)
      (hs : Reachable s) (hz : z ∈ s.zipcodeOrder)
      (he : alookup s.zipcodes z = some e) (hp : e.status = ZStatus.pending) :
      Reachable (p1HandlerFailed z s)
  | p2finish (s : CrawlState) (z : String) (i : Nat) (nav : Except String String)
      (now : String) (e : ZipcodeEntry) (p : PlanEntry)
      (hs : Reachable s) (hz : z ∈ s.zipcodeOrder)
      (he : alookup s.zipcodes z = some e)
      (hst1 : e.status ≠ ZStatus.zerror) (hst2 : e.status ≠ ZStatus.pending)
      (hp : e.plans.get? i = some p) (hpd : p.status = PStatus.pending) :
      Reachable (p2Handler z i nav now s)
  | p2error (s : CrawlState) (z : String) (i : Nat) (msg : String)
      (e : ZipcodeEntry) (p : PlanEntry)
      (hs : Reachable s) (hz : z ∈ s.zipcodeOrder)
      (he : alookup s.zipcodes z = some e)
      (hst1 : e.status ≠ ZStatus.zerror) (hst2 : e.status ≠ ZStatus.pending)
      (hp : e.plans.get? i = some p) (hpd : p.status = PStatus.pending) :
      Reachable (p2HandlerError z i msg s)

/-- Every reachable state satisfies the full invariant. -/
theorem reachable_inv (s : CrawlState) (hs : Reachable s) : Inv s := by
  induction hs with
  | init input workers now hnd => exact inv_initializeState input workers now hnd
  | merge s input workers hs hnd ih => exact inv_mergeState input workers s ih hnd
  | p1success s z pages totalPlans t1 t2 e hs hz he hp ih =>
    exact inv_p1success s z (collectPlanUrls pages totalPlans) t1 t2 e ih hz he hp
      (fun q hq => collectPlanUrls_fresh pages totalPlans q hq)
  | p1error s z msg t1 t2 e hs hz he hp ih => exact inv_p1error s z msg t1 t2 e ih hz he hp
  | p1failed s z e hs hz he hp ih => exact inv_p1failed s z e ih hz he hp
  | p2finish s z i nav now e p hs hz he hst1 hst2 hp hpd ih =>
    exact inv_p2finish s z i nav now e p ih hz he hst1 hst2 hp hpd
  | p2error s z i msg e p hs hz he hst1 hst2 hp hpd ih =>
    exact inv_p2error s z i msg e p ih hz he hst1 hst2 hp hpd

/-- The total number of plan entries ever created and held in the state. -/
def totalPlanEntries (s : CrawlState) : Nat :=
  (s.zipcodes.map (fun pr => pr.2.plans.length)).sum

/-- C4: in every reachable state — after initialization, after any
merge, and after any sequence of phase-1/phase-2 task-completion
handlers — `totalPlansFilled ≤ totalPlansFound ≤` the number of plan
entries created, and `phase2Completed ≤ phase1Completed ≤
totalZipcodes`. -/
theorem counter_invariants_of_reachable (s : CrawlState) (hs : Reachable s) :
    s.metadata.totalPlansFilled ≤ s.metadata.totalPlansFound ∧
      s.metadata.totalPlansFound ≤ totalPlanEntries s ∧
      s.metadata.phase2Completed ≤ s.metadata.phase1Completed ∧
      s.metadata.phase1Completed ≤ s.metadata.totalZipcodes := by
  have h := reachable_inv s hs
  have hDF : orderSum s.zipcodeOrder s.zipcodes filledContrib ≤
      orderSum s.zipcodeOrder s.zipcodes foundContrib := by
    apply orderSum_mono
    intro k e he
    have hei := h.entries k e he
    rw [filledContrib, foundContrib]
    by_cases hst : e.status = ZStatus.urlsCollected ∨ e.status = ZStatus.completed
    · rw [if_pos hst, hei.total_eq]
      exact countCompleted_le_length e.plans
    · rw [if_neg hst]
      have hpe : e.status = ZStatus.pending ∨ e.status = ZStatus.zerror := by
        cases hstat : e.status
        · exact Or.inl rfl
        · exact absurd (Or.inl hstat) hst
        · exact absurd (Or.inr hstat) hst
        · exact Or.inr rfl
      rw [hei.no_plans hpe]
      exact Nat.le_refl 0
  have hFoundLen : orderSum s.zipcodeOrder s.zipcodes foundContrib ≤
      orderSum s.zipcodeOrder s.zipcodes (fun e => e.plans.length) := by
    apply orderSum_mono
    intro k e he
    have hei := h.entries k e he
    rw [foundContrib]
    split
    · rw [hei.total_eq]
    · exact Nat.zero_le _
  have hLenMap := orderSum_le_entries s.zipcodeOrder s.zipcodes
    (fun e => e.plans.length) h.ord_nodup
  have hCB : orderSum s.zipcodeOrder s.zipcodes isCompletedInd ≤
      orderSum s.zipcodeOrder s.zipcodes isPhase1DoneInd := by
    apply orderSum_mono
    intro k e _
    rw [isCompletedInd, isPhase1DoneInd]
    by_cases hst : e.status = ZStatus.completed
    · rw [if_pos hst, if_pos (Or.inr hst)]
    · rw [if_neg hst]
      exact Nat.zero_le _
  refine ⟨?_, ?_, ?_, ?_⟩
  · rw [h.countE, h.countD]
    exact hDF
  · rw [h.countD, totalPlanEntries]
    exact Nat.le_trans hFoundLen hLenMap
  · exact Nat.le_trans h.countC (Nat.le_trans hCB h.countB)
  · have := h.countA
    omega

/-- Witness for C4: the invariant at a freshly initialized one-element
state. -/
theorem counter_invariants_witness :
    (initializeState [⟨"90210", "CA", "Beverly Hills"⟩] 4 "t0").metadata.totalPlansFilled ≤
        (initializeState [⟨"90210", "CA", "Beverly Hills"⟩] 4 "t0").metadata.totalPlansFound ∧
      (initializeState [⟨"90210", "CA", "Beverly Hills"⟩] 4 "t0").metadata.totalPlansFound ≤
        totalPlanEntries (initializeState [⟨"90210", "CA", "Beverly Hills"⟩] 4 "t0") ∧
      (initializeState [⟨"90210", "CA", "Beverly Hills"⟩] 4 "t0").metadata.phase2Completed ≤
        (initializeState [⟨"90210", "CA", "Beverly Hills"⟩] 4 "t0").metadata.phase1Completed ∧
      (initializeState [⟨"90210", "CA", "Beverly Hills"⟩] 4 "t0").metadata.phase1Completed ≤
        (initializeState [⟨"90210", "CA", "Beverly Hills"⟩] 4 "t0").metadata.totalZipcodes :=
  counter_invariants_of_reachable _
    (Reachable.init [⟨"90210", "CA", "Beverly Hills"⟩] 4 "t0" (by decide))

/-! ## Concrete fixtures for witnesses and counterexamples -/

/-- A plan summary with no detail location, as `extractPlanList` can
produce. -/
def noUrlPlan : PlanEntry :=
  createPlanEntry
    { planId := some "P2", planName := none, planType := none,
      monthlyPremium := none, estimatedAnnualCost := none, starRating := none,
      detailsUrl := none }

def fillEntry : ZipcodeEntry :=
  { index := 0, zipcode := "10001", zstate := "NY", city := "New York",
    status := ZStatus.urlsCollected, phase1StartedAt := some "t0",
    phase1CompletedAt := some "t1", phase2StartedAt := none, phase2CompletedAt := none,
    totalPlans := 1, plansWithDetails := 0, zerr := none, plans := [noUrlPlan] }

def fillState : CrawlState :=
  { metadata :=
      { createdAt := some "t", lastUpdatedAt := some "t", totalZipcodes := 1,
        phase1Completed := 1, phase2Completed := 0, totalPlansFound := 1,
        totalPlansFilled := 0, workers := 4 }
    zipcodeOrder := ["10001"]
    zipcodes := [("10001", fillEntry)] }

/-- Witness for C7: the pending no-URL plan of `fillState` is selected
for phase 2, and filling it completes it without navigation. -/
theorem plansToFill_spec_witness :
    ("10001" ∈ fillState.zipcodeOrder ∧ ∃ e, alookup fillState.zipcodes "10001" = some e ∧
      e.status ≠ ZStatus.zerror ∧ e.status ≠ ZStatus.pending ∧
      ∃ p, e.plans.get? 0 = some p ∧ p.status = PStatus.pending) ∧
    fillPlanDetails noUrlPlan (Except.error "nav down") "t9" =
      ({ noUrlPlan with status := PStatus.completed, scrapedAt := some "t9" }, false) :=
  ⟨(plansToFill_spec_and_no_url_fill.1 fillState "10001" 0).mp (by decide),
    plansToFill_spec_and_no_url_fill.2 noUrlPlan (Except.error "nav down") "t9" (by rfl)⟩

def donePlan : PlanEntry :=
  { noUrlPlan with
    status := PStatus.completed, details := some "payload",
    scrapedAt := some "t2" }

def doneEntry : ZipcodeEntry :=
  { fillEntry with
    zipcode := "90210", status := ZStatus.completed,
    plans := [donePlan], plansWithDetails := 1, phase2CompletedAt := some "t3" }

def doneState : CrawlState :=
  { metadata :=
      { createdAt := some "t", lastUpdatedAt := some "t", totalZipcodes := 1,
        phase1Completed := 1, phase2Completed := 1, totalPlansFound := 1,
        totalPlansFilled := 1, workers := 4 }
    zipcodeOrder := ["90210"]
    zipcodes := [("90210", doneEntry)] }

/-- Witness for C8: a fully processed one-entry state yields empty work
sets and an unchanged scheduler run. -/
theorem schedulerRun_idempotent_witness :
    phase1Pending doneState = [] ∧ plansToFill doneState = [] ∧
      ∀ o1 o2, schedulerRun o1 o2 doneState = doneState :=
  schedulerRun_idempotent_when_done doneState (by decide)

/-! ## C3: keys of `order` versus keys of `entries` after a merge -/

def staleEntryA : ZipcodeEntry :=
  { fillEntry with
    zipcode := "A", status := ZStatus.pending, plans := [],
    totalPlans := 0, phase1StartedAt := none, phase1CompletedAt := none }

def staleState : CrawlState :=
  { metadata :=
      { createdAt := some "t", lastUpdatedAt := some "t", totalZipcodes := 1,
        phase1Completed := 0, phase2Completed := 0, totalPlansFound := 0,
        totalPlansFilled := 0, workers := 4 }
    zipcodeOrder := ["A"]
    zipcodes := [("A", staleEntryA)] }

/-- C3, counterexample: merging the input `["B"]` into a state holding
key `A` leaves `A` in the entries map (the source never deletes from
`state.zipcodes`) while dropping it from `zipcodeOrder`, so the two key
sets differ. -/
theorem mergeState_keys_counterexample :
    "A" ∈ akeys (mergeState [⟨"B", "XX", "Btown"⟩] 4 staleState).zipcodes ∧
      "A" ∉ (mergeState [⟨"B", "XX", "Btown"⟩] 4 staleState).zipcodeOrder := by
  decide

theorem mem_akeys_mergeEntries_of_base (input : List ZInfo) (existing m : ZMap)
    (idx : Nat) (k : String) (hk : k ∈ akeys m) :
    k ∈ akeys (mergeEntries existing m idx input) := by
  induction input generalizing m idx with
  | nil => exact hk
  | cons z rest ih =>
    rw [mergeEntries]
    exact ih _ _ ((mem_akeys_ainsert m z.zipcode k (mergeRow existing z idx)).mpr (Or.inr hk))

theorem mem_akeys_mergeEntries_of_input (input : List ZInfo) (existing m : ZMap)
    (idx : Nat) (k : String) (hk : k ∈ input.map (fun z => z.zipcode)) :
    k ∈ akeys (mergeEntries existing m idx input) := by
  induction input generalizing m idx with
  | nil => cases hk
  | cons z rest ih =>
    rw [List.map_cons] at hk
    rw [mergeEntries]
    rcases List.mem_cons.mp hk with heq | hmem
    · exact mem_akeys_mergeEntries_of_base rest existing _ _ k
        ((mem_akeys_ainsert m z.zipcode k (mergeRow existing z idx)).mpr (Or.inl heq))
    · exact ih _ _ hmem

/-- C3, amended: after `mergeState` every key of the new `zipcodeOrder`
is a key of the entries map and every old key is retained, but a key
absent from the new input is only dropped from `zipcodeOrder` — it
stays in the entries map as garbage, so the two key sets need not be
equal. -/
theorem mergeState_keys_amended (input : List ZInfo) (workers : Nat) (s : CrawlState)
    (k : String) :
    (k ∈ (mergeState input workers s).zipcodeOrder →
      k ∈ akeys (mergeState input workers s).zipcodes) ∧
    (k ∈ akeys s.zipcodes → k ∈ akeys (mergeState input workers s).zipcodes) ∧
    (k ∉ input.map (fun z => z.zipcode) → k ∉ (mergeState input workers s).zipcodeOrder) := by
  refine ⟨?_, ?_, ?_⟩
  · intro hk
    exact mem_akeys_mergeEntries_of_input input s.zipcodes s.zipcodes 0 k hk
  · intro hk
    exact mem_akeys_mergeEntries_of_base input s.zipcodes s.zipcodes 0 k hk
  · intro hk
    exact hk

/-- Witness for the amended C3 at the counterexample state. -/
theorem mergeState_keys_amended_witness :
    "B" ∈ akeys (mergeState [⟨"B", "XX", "Btown"⟩] 4 staleState).zipcodes ∧
      "A" ∈ akeys (mergeState [⟨"B", "XX", "Btown"⟩] 4 staleState).zipcodes ∧
      "A" ∉ (mergeState [⟨"B", "XX", "Btown"⟩] 4 staleState).zipcodeOrder :=
  ⟨(mergeState_keys_amended [⟨"B", "XX", "Btown"⟩] 4 staleState "B").1 (by decide),
    (mergeState_keys_amended [⟨"B", "XX", "Btown"⟩] 4 staleState "A").2.1 (by decide),
    (mergeState_keys_amended [⟨"B", "XX", "Btown"⟩] 4 staleState "A").2.2 (by decide)⟩

/-! ## C6: the recovery cascade (`loadState`) and the startup decision

Each persisted file is modelled as `Option (Option _)`: `none` when the
file does not exist (`existsSync` false), `some none` when it exists
but fails to parse, `some (some v)` when it parses to `v`. -/

def DEFAULT_WORKERS : Nat := 10

/-- One record of the `medicare_plans.json` full export, as read back by
the recovery branch of `loadState` (the `|| 0` and `|| []` coalescing of
the source is the identity on this typed embedding). -/
structure ExportEntry where
  index : Nat
  zipcode : String
  zstate : String
  city : String
  status : ZStatus
  totalPlans : Nat
  plansWithDetails : Nat
  zerr : Option String
  plans : List PlanEntry
  deriving DecidableEq, Repr

structure RecoveryInput where
  stateFile : Option (Option CrawlState)
  backupFile : Option (Option CrawlState)
  jsonFile : Option (Option (List ExportEntry))
  deriving DecidableEq, Repr

/-- `phase1Done` of the rebuild loop (lines 395-399). -/
def rebuildPhase1Done : List ExportEntry → Nat
  | [] => 0
  | en :: rest =>
    (if en.status = ZStatus.urlsCollected ∨ en.status = ZStatus.completed then 1 else 0) +
      rebuildPhase1Done rest

/-- `phase2Done` of the rebuild loop (lines 400-402). -/
def rebuildPhase2Done : List ExportEntry → Nat
  | [] => 0
  | en :: rest =>
    (if en.status = ZStatus.completed then 1 else 0) + rebuildPhase2Done rest

/-- `totalPlans` of the rebuild loop. -/
def rebuildTotalPlans : List ExportEntry → Nat
  | [] => 0
  | en :: rest =>
    (if en.status = ZStatus.urlsCollected ∨ en.status = ZStatus.completed
     then en.totalPlans else 0) + rebuildTotalPlans rest

/-- `plansFilled` of the rebuild loop (lines 400-408). -/
def rebuildPlansFilled : List ExportEntry → Nat
  | [] => 0
  | en :: rest =>
    (if en.status = ZStatus.completed then en.plansWithDetails
     else countCompleted en.plans) + rebuildPlansFilled rest

/-- One rebuilt `ZipcodeEntry` (lines 426-440): statuses and payloads
survive, all four phase timestamps are reset to `null`. -/
def exportToEntry (en : ExportEntry) : ZipcodeEntry :=
  { index := en.index
    zipcode := en.zipcode
    zstate := en.zstate
    city := en.city
    status := en.status
    phase1StartedAt := none
    phase1CompletedAt := none
    phase2StartedAt := none
    phase2CompletedAt := none
    totalPlans := en.totalPlans
    plansWithDetails := en.plansWithDetails
    zerr := en.zerr
    plans := en.plans }

def rebuildEntries (m : ZMap) : List ExportEntry → ZMap
  | [] => m
  | en :: rest => rebuildEntries (ainsert m en.zipcode (exportToEntry en)) rest

/-- The state reconstructed from the full-record export (lines 410-441). -/
def rebuildFromJson (plansData : List ExportEntry) (now : String) : CrawlState :=
  { metadata :=
      { createdAt := some now
        lastUpdatedAt := some now
        totalZipcodes := plansData.length
        phase1Completed := rebuildPhase1Done plansData
        phase2Completed := rebuildPhase2Done plansData
        totalPlansFound := rebuildTotalPlans plansData
        totalPlansFilled := rebuildPlansFilled plansData
        workers := DEFAULT_WORKERS }
    zipcodeOrder := plansData.map (fun en => en.zipcode)
    zipcodes := rebuildEntries [] plansData }

inductive LoadOutcome where
  | loaded (s : CrawlState) (fromBackup : Bool) (recovered : Bool)
  | failed
  deriving DecidableEq, Repr

/-- `loadState()` (lines 349-455): primary state file, then `.backup`,
then reconstruction from the export; a file that is absent or fails to
parse falls through to the next stage. -/
def loadState (inp : RecoveryInput) (now : String) : LoadOutcome :=
  match inp.stateFile with
  | some (some s) => LoadOutcome.loaded s false false
  | _ =>
    match inp.backupFile with
    | some (some s) => LoadOutcome.loaded s true false
    | _ =>
      match inp.jsonFile with
      | some (some d) => LoadOutcome.loaded (rebuildFromJson d now) false true
      | _ => LoadOutcome.failed

inductive StartupDecision where
  | refuse
  | fresh (s : CrawlState)
  | proceed (s : CrawlState)
  deriving DecidableEq, Repr

/-- The non-`--reset` startup decision of `main` (lines 1062-1095):
merge on a successful load; on failure, refuse (`process.exit(1)`) when
`medicare_plans.json` or `crawler_state.json` exists on disk, and
initialize fresh otherwise. -/
def startupDecision (inp : RecoveryInput) (zipcodes : List ZInfo) (workers : Nat)
    (now : String) : StartupDecision :=
  match loadState inp now with
  | LoadOutcome.loaded s _ _ => StartupDecision.proceed (mergeState zipcodes workers s)
  | LoadOutcome.failed =>
    if inp.jsonFile.isSome || inp.stateFile.isSome then StartupDecision.refuse
    else StartupDecision.fresh (initializeState zipcodes workers now)

/-- A disk holding only a corrupt `.backup` file. -/
def corruptBackupOnly : RecoveryInput :=
  { stateFile := none, backupFile := some none, jsonFile := none }

/-- C6, counterexample: with only a corrupt `.backup` present, all three
cascade stages fail and a prior artifact exists, yet the program
initializes fresh instead of refusing — the refusal check tests only the
primary state file and the JSON export, never the backup. -/
theorem startup_refusal_counterexample :
    loadState corruptBackupOnly "t" = LoadOutcome.failed ∧
      corruptBackupOnly.backupFile.isSome = true ∧
      startupDecision corruptBackupOnly [⟨"90210", "CA", "LA"⟩] 4 "t" =
        StartupDecision.fresh (initializeState [⟨"90210", "CA", "LA"⟩] 4 "t") ∧
      startupDecision corruptBackupOnly [⟨"90210", "CA", "LA"⟩] 4 "t" ≠
        StartupDecision.refuse := by
  refine ⟨rfl, rfl, rfl, ?_⟩
  intro h
  cases h

theorem rebuildEntries_lookup (data : List ExportEntry) (m : ZMap) (k : String)
    (e : ZipcodeEntry) (h : alookup (rebuildEntries m data) k = some e) :
    (∃ en, e = exportToEntry en) ∨ alookup m k = some e := by
  induction data generalizing m with
  | nil => exact Or.inr h
  | cons en rest ih =>
    rw [rebuildEntries] at h
    rcases ih _ h with hnew | hold
    · exact Or.inl hnew
    · rw [alookup_ainsert] at hold
      by_cases hk : k = en.zipcode
      · rw [if_pos hk] at hold
        exact Or.inl ⟨en, (Option.some.injEq _ _ ▸ hold).symm⟩
      · rw [if_neg hk] at hold
        exact Or.inr hold

/-- C6, amended: the cascade is as claimed — primary if it parses, else
backup, else reconstruction from the export with phase timestamps reset
to `null` and counters recomputed by the rebuild loop — but when all
three stages fail, the run refuses exactly when the primary state file
or the JSON export exists (valid or not); a leftover `.backup` or CSV
alone does not prevent a fresh start. -/
theorem loadState_cascade_spec (inp : RecoveryInput) (zipcodes : List ZInfo)
    (workers : Nat) (now : String) :
    (∀ s0, inp.stateFile = some (some s0) →
      loadState inp now = LoadOutcome.loaded s0 false false) ∧
    (∀ s0, (∀ s1, inp.stateFile ≠ some (some s1)) → inp.backupFile = some (some s0) →
      loadState inp now = LoadOutcome.loaded s0 true false) ∧
    (∀ d, (∀ s1, inp.stateFile ≠ some (some s1)) → (∀ s1, inp.backupFile ≠ some (some s1)) →
      inp.jsonFile = some (some d) →
      loadState inp now = LoadOutcome.loaded (rebuildFromJson d now) false true ∧
      (∀ k e, alookup (rebuildFromJson d now).zipcodes k = some e →
        e.phase1StartedAt = none ∧ e.phase1CompletedAt = none ∧
          e.phase2StartedAt = none ∧ e.phase2CompletedAt = none)) ∧
    (loadState inp now = LoadOutcome.failed →
      (startupDecision inp zipcodes workers now = StartupDecision.refuse ↔
        (inp.stateFile.isSome = true ∨ inp.jsonFile.isSome = true)) ∧
      (inp.stateFile = none ∧ inp.jsonFile = none →
        startupDecision inp zipcodes workers now =
          StartupDecision.fresh (initializeState zipcodes workers now))) := by
  obtain ⟨sf, bf, jf⟩ := inp
  refine ⟨?_, ?_, ?_, ?_⟩
  · intro s0 h
    simp only at h
    subst h
    rfl
  · intro s0 hns h
    simp only at h
    subst h
    match sf, hns with
    | none, _ => rfl
    | some none, _ => rfl
    | some (some s1), hns => exact absurd rfl (hns s1)
  · intro d hns hnb h
    simp only at h
    subst h
    have hload : loadState ⟨sf, bf, some (some d)⟩ now =
        LoadOutcome.loaded (rebuildFromJson d now) false true := by
      match sf, hns with
      | none, _ =>
        match bf, hnb with
        | none, _ => rfl
        | some none, _ => rfl
        | some (some s1), hnb => exact absurd rfl (hnb s1)
      | some none, _ =>
        match bf, hnb with
        | none, _ => rfl
        | some none, _ => rfl
        | some (some s1), hnb => exact absurd rfl (hnb s1)
      | some (some s1), hns => exact absurd rfl (hns s1)
    refine ⟨hload, ?_⟩
    intro k e he
    rcases rebuildEntries_lookup d [] k e he with ⟨en, rfl⟩ | habs
    · exact ⟨rfl, rfl, rfl, rfl⟩
    · rw [alookup] at habs
      cases habs
  · intro hfail
    constructor
    · rw [startupDecision, hfail]
      by_cases hcond : (jf.isSome || sf.isSome) = true
      · rw [if_pos hcond]
        simp only [Bool.or_eq_true] at hcond
        exact ⟨fun _ => hcond.elim (fun h => Or.inr h) (fun h => Or.inl h), fun _ => rfl⟩
      · rw [if_neg hcond]
        simp only [Bool.or_eq_true] at hcond
        push_neg at hcond
        constructor
        · intro h
          cases h
        · intro h
          rcases h with h | h
          · exact absurd h hcond.2
          · exact absurd h hcond.1
    · rintro ⟨hsf, hjf⟩
      simp only at hsf hjf
      subst hsf
      subst hjf
      rw [startupDecision, hfail]
      rfl

/-- Witness for the amended C6: the primary-parses stage and the
all-fail fresh-start stage, each at a concrete disk. -/
theorem loadState_cascade_spec_witness :
    loadState ⟨some (some doneState), none, none⟩ "t" =
        LoadOutcome.loaded doneState false false ∧
      startupDecision ⟨none, none, none⟩ [⟨"90210", "CA", "LA"⟩] 4 "t" =
        StartupDecision.fresh (initializeState [⟨"90210", "CA", "LA"⟩] 4 "t") :=
  ⟨(loadState_cascade_spec ⟨some (some doneState), none, none⟩ [] 4 "t").1 doneState rfl,
    ((loadState_cascade_spec ⟨none, none, none⟩ [⟨"90210", "CA", "LA"⟩] 4 "t").2.2.2
      rfl).2 ⟨rfl, rfl⟩⟩

end Crawler
